import Mathlib

/-!
# SwiftShader GLSL front end: symbol table and type mangling

A shallow embedding of `src/OpenGL/compiler/SymbolTable.cpp` and theorems about it.

Conventions of the embedding.

* `TString` is `String`; a C `char` appended to a string is a `Char`.
* A C `int` is an `Int`; `size_t` values are `Nat`s reduced modulo `2 ^ w`, for a width
  `w` that the functions take as a parameter.
* A loop is a function by recursion on a fuel argument; running out of fuel is the
  fault `Fault.outOfFuel`, so a result `Except.ok _` is a run that terminated.
* An out-of-range subscript of the level vector is the fault `Fault.outOfBounds`;
  dereferencing a null aggregate pointer while mangling yields `none`.
* Declarations that live in the header files (`SymbolTable.h`, `Types.h`, `BaseTypes.h`),
  which are not part of the sources at hand, are marked as such in their doc comments.
-/

namespace SwiftShader

/-- The pool string type of the compiler. -/
abbrev TString := String

/-- Ways in which a run of the embedded code can fail to produce a value. -/
inductive Fault where
  | outOfBounds
  | outOfFuel
  deriving DecidableEq, Repr

deriving instance DecidableEq for Except

/-! ## Symbol table -/

/-- Modelled from the spec: the class `TSymbol` is declared in the header; the spec gives a
symbol a name and a unique id. -/
structure TSymbol where
  name : TString
  uniqueId : Int
  deriving DecidableEq, Repr

/-- Modelled from the spec: the class `TSymbolTableLevel` is declared in the header; the spec
describes a level as a mapping from name to symbol. The mapping is kept as an association
list whose first entry for a name is the one in effect. -/
structure TSymbolTableLevel where
  level : List (TString × TSymbol)
  deriving DecidableEq, Repr

/-- Modelled from the spec: `TSymbolTableLevel::find` is defined in the header; the spec
describes it as the lookup of a name in the mapping of the level, absent names giving null. -/
def TSymbolTableLevel.find (l : TSymbolTableLevel) (name : TString) : Option TSymbol :=
  l.level.lookup name

/-- Modelled from the spec: the class `TSymbolTable` is declared in the header; the spec
describes it as an ordered stack of table levels (`table` in the source). -/
structure TSymbolTable where
  table : List TSymbolTableLevel
  deriving DecidableEq, Repr

/-- Modelled from the spec: the level constants are declared in the header; the spec fixes
the order shared built-ins, version-100-only built-ins, version-300-only built-ins, and
then the user levels above the last built-in level. -/
def COMMON_BUILTINS : Int := 0

/-- Modelled from the spec: index of the version-100-only built-in level (see
`COMMON_BUILTINS`). -/
def ESSL1_BUILTINS : Int := 1

/-- Modelled from the spec: index of the version-300-only built-in level (see
`COMMON_BUILTINS`). -/
def ESSL3_BUILTINS : Int := 2

/-- Modelled from the spec: the last built-in level is the highest of the three built-in
levels (see `COMMON_BUILTINS`). -/
def LAST_BUILTIN_LEVEL : Int := ESSL3_BUILTINS

/-- Modelled from the spec: `TSymbolTable::currentLevel` is defined in the header; the
spec has the levels `0 .. currentLevel` exist, the current one being the top of the stack. -/
def TSymbolTable.currentLevel (t : TSymbolTable) : Int :=
  (t.table.length : Int) - 1

/-- The subscript `table[level]` with an `int` index. -/
def TSymbolTable.levelAt (t : TSymbolTable) (level : Int) : Except Fault TSymbolTableLevel :=
  if 0 ≤ level then
    match t.table[level.toNat]? with
    | some l => .ok l
    | none => .error .outOfBounds
  else .error .outOfBounds

/-- The condition of the inner `while` of `find` and `findBuiltIn`:
`(level == ESSL3_BUILTINS && shaderVersion != 300) ||
 (level == ESSL1_BUILTINS && shaderVersion != 100)`. -/
def isSkippedLevel (level shaderVersion : Int) : Bool :=
  (level == ESSL3_BUILTINS && shaderVersion != 300) ||
  (level == ESSL1_BUILTINS && shaderVersion != 100)

/-- The inner loop `while(...) { --level; }` that skips version specific levels. -/
def skipVersionSpecificLevels (shaderVersion : Int) : Nat → Int → Except Fault Int
  | 0, _ => .error .outOfFuel
  | fuel + 1, level =>
    if isSkippedLevel level shaderVersion then
      skipVersionSpecificLevels shaderVersion fuel (level - 1)
    else .ok level

/-- The `do { ... } while(!symbol && --level >= 0);` loop of `TSymbolTable::find`. The
result is the pair of `symbol` and the value of `level` when the loop is left: the
decrement in the loop condition is not evaluated when a symbol was found. -/
def TSymbolTable.findLoop (t : TSymbolTable) (name : TString) (shaderVersion : Int) :
    Nat → Int → Except Fault (Option TSymbol × Int)
  | 0, _ => .error .outOfFuel
  | fuel + 1, level =>
    match skipVersionSpecificLevels shaderVersion (level.toNat + 1) level with
    | .error e => .error e
    | .ok level =>
      match t.levelAt level with
      | .error e => .error e
      | .ok l =>
        match l.find name with
        | some symbol => .ok (some symbol, level)
        | none =>
          if level - 1 ≥ 0 then t.findLoop name shaderVersion fuel (level - 1)
          else .ok (none, level - 1)

/-- The three values `TSymbolTable::find` hands back: the returned pointer and the two
output parameters. -/
structure FindResult where
  symbol : Option TSymbol
  builtIn : Bool
  sameScope : Bool
  deriving DecidableEq, Repr

/-- `TSymbolTable::find`. -/
def TSymbolTable.find (t : TSymbolTable) (name : TString) (shaderVersion : Int) :
    Except Fault FindResult :=
  match t.findLoop name shaderVersion (t.table.length + 1) t.currentLevel with
  | .error e => .error e
  | .ok (symbol, level) =>
    .ok { symbol := symbol
          builtIn := decide (level ≤ LAST_BUILTIN_LEVEL)
          sameScope := decide (level = t.currentLevel) }

/-- The `for(int level = LAST_BUILTIN_LEVEL; level >= 0; --level)` loop of
`TSymbolTable::findBuiltIn`, entered at the test of its condition. -/
def TSymbolTable.findBuiltInLoop (t : TSymbolTable) (name : TString) (shaderVersion : Int) :
    Nat → Int → Except Fault (Option TSymbol)
  | 0, _ => .error .outOfFuel
  | fuel + 1, level =>
    if level ≥ 0 then
      match skipVersionSpecificLevels shaderVersion (level.toNat + 1) level with
      | .error e => .error e
      | .ok level =>
        match t.levelAt level with
        | .error e => .error e
        | .ok l =>
          match l.find name with
          | some symbol => .ok (some symbol)
          | none => t.findBuiltInLoop name shaderVersion fuel (level - 1)
    else .ok none

/-- `TSymbolTable::findBuiltIn`. -/
def TSymbolTable.findBuiltIn (t : TSymbolTable) (name : TString) (shaderVersion : Int) :
    Except Fault (Option TSymbol) :=
  t.findBuiltInLoop name shaderVersion (LAST_BUILTIN_LEVEL.toNat + 2) LAST_BUILTIN_LEVEL

/-- The symbol, if any, that level `i` of the table holds under `name`. -/
def TSymbolTable.symbolAt (t : TSymbolTable) (i : Nat) (name : TString) : Option TSymbol :=
  (t.table[i]?).bind (fun l => l.find name)

/-- Level `i` is searched under dialect `shaderVersion`: it is not the 300-only level
with a version other than 300, nor the 100-only level with a version other than 100. -/
def isEligibleLevel (i : Nat) (shaderVersion : Int) : Prop :=
  ¬ (((i : Int) = ESSL3_BUILTINS ∧ shaderVersion ≠ 300) ∨
     ((i : Int) = ESSL1_BUILTINS ∧ shaderVersion ≠ 100))

/-- The lookup the specification describes, as a scan from level `n` down to level `0`:
the first searched level that holds the name decides, together with its index. -/
def TSymbolTable.resolveFrom (t : TSymbolTable) (name : TString) (shaderVersion : Int) :
    Nat → Option (TSymbol × Nat)
  | 0 =>
    if isSkippedLevel 0 shaderVersion then none
    else (t.symbolAt 0 name).map (fun s => (s, 0))
  | n + 1 =>
    if isSkippedLevel ((n : Int) + 1) shaderVersion then t.resolveFrom name shaderVersion n
    else
      match t.symbolAt (n + 1) name with
      | some s => some (s, n + 1)
      | none => t.resolveFrom name shaderVersion n

/-! ### Example tables -/

/-- A built-in symbol named `foo`. -/
def exBuiltInFoo : TSymbol := { name := "foo", uniqueId := 1 }

/-- A user symbol named `foo`. -/
def exUserFoo : TSymbol := { name := "foo", uniqueId := 2 }

/-- A table with the three built-in levels and one user level: `foo` is a built-in of the
300-only level and is declared again in the user level. -/
def exTableShadow : TSymbolTable :=
  { table := [{ level := [] }, { level := [] }, { level := [("foo", exBuiltInFoo)] },
              { level := [("foo", exUserFoo)] }] }

/-- A table with the three built-in levels only: `foo` is in the 300-only level. -/
def exTable300 : TSymbolTable :=
  { table := [{ level := [] }, { level := [] }, { level := [("foo", exBuiltInFoo)] }] }

/-- A table with the three built-in levels only: `foo` is in the 100-only level. -/
def exTable100 : TSymbolTable :=
  { table := [{ level := [] }, { level := [("foo", exBuiltInFoo)] }, { level := [] }] }

/-! ## Type descriptors and aggregates -/

/-- Modelled from the spec: the enumeration `TBasicType` is declared in the header. The
kinds are those that `SymbolTable.cpp` names (the numeric and boolean kinds, the family of
sampler kinds, struct and interface block); `EbtOther n` stands for any further enumerator,
which the `switch` of `buildMangledName` sends to its `default` branch. -/
inductive TBasicType where
  | EbtFloat
  | EbtInt
  | EbtUInt
  | EbtBool
  | EbtSampler2D
  | EbtSampler3D
  | EbtSamplerCube
  | EbtSampler2DArray
  | EbtSamplerExternalOES
  | EbtISampler2D
  | EbtISampler3D
  | EbtISamplerCube
  | EbtISampler2DArray
  | EbtUSampler2D
  | EbtUSampler3D
  | EbtUSamplerCube
  | EbtUSampler2DArray
  | EbtSampler2DShadow
  | EbtSamplerCubeShadow
  | EbtSampler2DArrayShadow
  | EbtStruct
  | EbtInterfaceBlock
  | EbtOther (n : Nat)
  deriving DecidableEq, Repr

open TBasicType

/-- Modelled from the spec: `IsSampler` is declared in the header; the spec speaks of the
family of sampler kinds distinguished by dimensionality, signedness, array-ness and
shadow-ness, which are the sampler enumerators the source names. -/
def IsSampler : TBasicType → Bool
  | EbtSampler2D | EbtSampler3D | EbtSamplerCube | EbtSampler2DArray
  | EbtSamplerExternalOES
  | EbtISampler2D | EbtISampler3D | EbtISamplerCube | EbtISampler2DArray
  | EbtUSampler2D | EbtUSampler3D | EbtUSamplerCube | EbtUSampler2DArray
  | EbtSampler2DShadow | EbtSamplerCubeShadow | EbtSampler2DArrayShadow => true
  | _ => false

mutual
/-- Modelled from the spec: the class `TType` is declared in the header. The fields are
those the constructor in `SymbolTable.cpp` sets, in its order; `precision`, `qualifier` and
`layoutQualifier` are kept as numbers, and the two members that are null after construction
and that no modelled function reads (`arrayInformationType`, the cache `mangled`) are left
out. `primarySize` and `secondarySize` are `unsigned char`, `arraySize` is `int`. -/
inductive TType where
  | mk (type : TBasicType) (precision : Nat) (qualifier : Nat) (invariant : Bool)
      (layoutQualifier : Nat) (primarySize : Nat) (secondarySize : Nat) (array : Bool)
      (arraySize : Int) (maxArraySize : Int) (interfaceBlock : TAggregatePtr)
      (struct_ : TAggregatePtr) (deepestStructNesting : Int) : TType
/-- A pointer to an aggregate definition (`TStructure *`, `TInterfaceBlock *`). -/
inductive TAggregatePtr where
  | null : TAggregatePtr
  | ptr (target : TFieldListCollection) : TAggregatePtr
/-- Modelled from the spec: the class `TFieldListCollection`, base of `TStructure` and
`TInterfaceBlock`, is declared in the header: a name and an ordered field list. The value
that the virtual `mangledNamePrefix()` of the object's class returns is kept with it. -/
inductive TFieldListCollection where
  | mk (mangledNamePrefix : TString) (mName : TString) (mFields : TFieldList) :
      TFieldListCollection
/-- The field list `TFieldList` (a vector of `TField *`). -/
inductive TFieldList where
  | nil : TFieldList
  | cons (head : TField) (tail : TFieldList) : TFieldList
/-- Modelled from the spec: the class `TField` is declared in the header: a field has a
type and a name. -/
inductive TField where
  | mk (type : TType) (name : TString) : TField
end

/-- Member `type` (`getBasicType()`). -/
def TType.type : TType → TBasicType
  | .mk ty _ _ _ _ _ _ _ _ _ _ _ _ => ty

/-- Member `precision`. -/
def TType.precision : TType → Nat
  | .mk _ x _ _ _ _ _ _ _ _ _ _ _ => x

/-- Member `qualifier`. -/
def TType.qualifier : TType → Nat
  | .mk _ _ x _ _ _ _ _ _ _ _ _ _ => x

/-- Member `invariant`. -/
def TType.invariant : TType → Bool
  | .mk _ _ _ x _ _ _ _ _ _ _ _ _ => x

/-- Member `layoutQualifier`. -/
def TType.layoutQualifier : TType → Nat
  | .mk _ _ _ _ x _ _ _ _ _ _ _ _ => x

/-- Member `primarySize`. -/
def TType.primarySize : TType → Nat
  | .mk _ _ _ _ _ x _ _ _ _ _ _ _ => x

/-- Member `secondarySize`. -/
def TType.secondarySize : TType → Nat
  | .mk _ _ _ _ _ _ x _ _ _ _ _ _ => x

/-- Member `array`. -/
def TType.array : TType → Bool
  | .mk _ _ _ _ _ _ _ x _ _ _ _ _ => x

/-- Member `arraySize` (`getArraySize()`). -/
def TType.arraySize : TType → Int
  | .mk _ _ _ _ _ _ _ _ x _ _ _ _ => x

/-- Member `maxArraySize`. -/
def TType.maxArraySize : TType → Int
  | .mk _ _ _ _ _ _ _ _ _ x _ _ _ => x

/-- Member `interfaceBlock`. -/
def TType.interfaceBlock : TType → TAggregatePtr
  | .mk _ _ _ _ _ _ _ _ _ _ x _ _ => x

/-- Member `structure` (`getStruct()`). -/
def TType.struct_ : TType → TAggregatePtr
  | .mk _ _ _ _ _ _ _ _ _ _ _ x _ => x

/-- Member `deepestStructNesting` (`getDeepestStructNesting()`). -/
def TType.deepestStructNesting : TType → Int
  | .mk _ _ _ _ _ _ _ _ _ _ _ _ x => x

/-- Member `mName` of an aggregate. -/
def TFieldListCollection.mName : TFieldListCollection → TString
  | .mk _ n _ => n

/-- Member `mFields` of an aggregate. -/
def TFieldListCollection.mFields : TFieldListCollection → TFieldList
  | .mk _ _ fs => fs

/-- The value of the virtual `mangledNamePrefix()` for the aggregate. -/
def TFieldListCollection.mangledNamePrefix : TFieldListCollection → TString
  | .mk p _ _ => p

/-- Accessor `TField::type()`. -/
def TField.type : TField → TType
  | .mk t _ => t

/-- Accessor `TField::name()`. -/
def TField.name : TField → TString
  | .mk _ n => n

/-- The fields of a field list, in declaration order. -/
def TFieldList.toList : TFieldList → List TField
  | .nil => []
  | .cons f rest => f :: rest.toList

/-- Modelled from the spec: `TType::isMatrix` is defined in the header; a value is a matrix
iff `secondarySize > 1`. -/
def TType.isMatrix (t : TType) : Bool := decide (t.secondarySize > 1)

/-- Modelled from the spec: `TType::isVector` is defined in the header; a value is a vector
iff `secondarySize == 1 && primarySize > 1`. -/
def TType.isVector (t : TType) : Bool :=
  decide (t.primarySize > 1) && decide (t.secondarySize = 1)

/-- Modelled from the spec: `TType::isArray` is defined in the header: the array-ness flag. -/
def TType.isArray (t : TType) : Bool := t.array

/-- Modelled from the spec: `TType::getNominalSize` is defined in the header: the primary
size, as an `int`. -/
def TType.getNominalSize (t : TType) : Int := (t.primarySize : Int)

/-- Modelled from the spec: `TType::getSecondarySize` is defined in the header: the
secondary size, as an `int`. -/
def TType.getSecondarySize (t : TType) : Int := (t.secondarySize : Int)

/-- The conversion `static_cast<char>(c)` of an `int`, as the character with that byte
value. -/
def toChar (c : Int) : Char := Char.ofNat (c % 256).toNat

/-- The decimal digits of a natural number, most significant first (the loop runs on
fuel; `fuel > n` is always enough). -/
def decimalDigits : Nat → Nat → List Char
  | 0, _ => []
  | fuel + 1, n =>
    if n < 10 then [Char.ofNat (48 + n)]
    else decimalDigits fuel (n / 10) ++ [Char.ofNat (48 + n % 10)]

/-- The text that `snprintf(buf, sizeof(buf), "%d", n)` writes for an `int` n: a minus
sign for a negative number, then the decimal digits. The buffer of 20 bytes holds the
text of every 32-bit `int` in full. -/
def formatInt : Int → TString
  | .ofNat n => ⟨decimalDigits (n + 1) n⟩
  | .negSucc n => ⟨'-' :: decimalDigits (n + 2) (n + 1)⟩

/-- The `switch (type)` of `TType::buildMangledName`. The two aggregate names are the
values of `structure->mangledName()` and `interfaceBlock->mangledName()`, `none` when the
pointer is null; each is used by its own case only. -/
def appendKindTag (type : TBasicType) (structureName interfaceBlockName : Option TString)
    (mangledName : TString) : Option TString :=
  match type with
  | EbtFloat => some (mangledName.push 'f')
  | EbtInt => some (mangledName.push 'i')
  | EbtUInt => some (mangledName.push 'u')
  | EbtBool => some (mangledName.push 'b')
  | EbtSampler2D => some (mangledName ++ "s2")
  | EbtSampler3D => some (mangledName ++ "s3")
  | EbtSamplerCube => some (mangledName ++ "sC")
  | EbtSampler2DArray => some (mangledName ++ "s2a")
  | EbtSamplerExternalOES => some (mangledName ++ "sext")
  | EbtISampler2D => some (mangledName ++ "is2")
  | EbtISampler3D => some (mangledName ++ "is3")
  | EbtISamplerCube => some (mangledName ++ "isC")
  | EbtISampler2DArray => some (mangledName ++ "is2a")
  | EbtUSampler2D => some (mangledName ++ "us2")
  | EbtUSampler3D => some (mangledName ++ "us3")
  | EbtUSamplerCube => some (mangledName ++ "usC")
  | EbtUSampler2DArray => some (mangledName ++ "us2a")
  | EbtSampler2DShadow => some (mangledName ++ "s2s")
  | EbtSamplerCubeShadow => some (mangledName ++ "sCs")
  | EbtSampler2DArrayShadow => some (mangledName ++ "s2as")
  | EbtStruct =>
    match structureName with
    | some n => some (mangledName ++ n)
    | none => none
  | EbtInterfaceBlock =>
    match interfaceBlockName with
    | some n => some (mangledName ++ n)
    | none => none
  | EbtOther _ => some mangledName

/-- The part of `TType::buildMangledName` before the `switch`: the shape mark. -/
def appendShapeMark (t : TType) (mangledName : TString) : TString :=
  if t.isMatrix then mangledName.push 'm'
  else if t.isVector then mangledName.push 'v'
  else mangledName

/-- The part of `TType::buildMangledName` after the `switch`: the size characters and the
array suffix. -/
def appendSizes (t : TType) (mangledName : TString) : TString :=
  let mangledName := mangledName.push (toChar (('0'.toNat : Int) + t.getNominalSize))
  let mangledName :=
    if t.isMatrix then mangledName.push (toChar (('0'.toNat : Int) + t.getSecondarySize))
    else mangledName
  if t.isArray then
    let buf := formatInt t.arraySize
    ((mangledName.push '[') ++ buf).push ']'
  else mangledName

mutual
/-- `TType::buildMangledName`: appends the mangled name of the type to `mangledName`.
The result is `none` when the `switch` dereferences a null aggregate pointer. -/
def TType.buildMangledName : TType → TString → Option TString
  | .mk ty pr q inv lq ps ss arr n mx ib st dn, mangledName =>
    match appendKindTag ty st.mangledName ib.mangledName
        (appendShapeMark (.mk ty pr q inv lq ps ss arr n mx ib st dn) mangledName) with
    | none => none
    | some mangledName =>
      some (appendSizes (.mk ty pr q inv lq ps ss arr n mx ib st dn) mangledName)
/-- Modelled from the spec: `mangledName()` of an aggregate is defined in the header: the
lazily computed (memoized) value of `buildMangledName()`; here through a pointer, `none`
for the null pointer. -/
def TAggregatePtr.mangledName : TAggregatePtr → Option TString
  | .null => none
  | .ptr s => s.buildMangledName
/-- `TFieldListCollection::buildMangledName`. -/
def TFieldListCollection.buildMangledName : TFieldListCollection → Option TString
  | .mk mangledNamePrefix mName mFields =>
    let mangledName : TString := mangledNamePrefix
    let mangledName := mangledName ++ mName
    mFields.appendMangledNames mangledName
/-- The `for` loop of `TFieldListCollection::buildMangledName`. -/
def TFieldList.appendMangledNames : TFieldList → TString → Option TString
  | .nil, mangledName => some mangledName
  | .cons f rest, mangledName =>
    match f.typeMangledName with
    | none => none
    | some m => rest.appendMangledNames ((mangledName.push '-') ++ m)
/-- The value of `(*mFields)[i]->type()->getMangledName()` for a field, with
`TType.getMangledName` (below) written out. -/
def TField.typeMangledName : TField → Option TString
  | .mk t _ => t.buildMangledName ""
end

/-- Modelled from the spec: `TType::getMangledName` is defined in the header: the memoized
mangled encoding of the descriptor, computed once by `buildMangledName` into an empty
string. -/
def TType.getMangledName (t : TType) : Option TString := t.buildMangledName ""

/-! ### Object size -/

/-- The constant `INT_MAX` of `<limits.h>`, for the 32-bit `int` of the supported targets. -/
def INT_MAX : Nat := 2147483647

mutual
/-- Modelled from the spec: `TType::getObjectSize` is defined in the header. The spec gives
the object size of a scalar, vector or matrix as its component count, times the array
length if it is an array, and the object size of an aggregate as the sum over its fields.
The value is a `size_t` of `w` bits. -/
def TType.getObjectSize (w : Nat) : TType → Nat
  | .mk ty _ _ _ _ ps ss arr n _ ib st _ =>
    match ty with
    | EbtStruct => st.objectSize w % 2 ^ w
    | EbtInterfaceBlock => ib.objectSize w % 2 ^ w
    | _ =>
      let componentCount : Nat := if ss > 1 then ps * ss else ps
      (if arr then componentCount * (n % (2 ^ w : Int)).toNat else componentCount) % 2 ^ w
/-- Modelled from the spec: `objectSize()` of an aggregate is defined in the header: the
lazily computed value of `calculateObjectSize()`; here through a pointer, with the value
`0` that `TType::getStructSize` returns for the null pointer. -/
def TAggregatePtr.objectSize (w : Nat) : TAggregatePtr → Nat
  | .null => 0
  | .ptr s => s.calculateObjectSize w
/-- `TFieldListCollection::calculateObjectSize`, with a `size_t` of `w` bits. -/
def TFieldListCollection.calculateObjectSize (w : Nat) : TFieldListCollection → Nat
  | .mk _ _ mFields => mFields.calculateObjectSizeLoop w 0
/-- The `for` loop of `TFieldListCollection::calculateObjectSize`, from the running total
`size`. The difference `INT_MAX - size` is taken in `size_t`. -/
def TFieldList.calculateObjectSizeLoop (w : Nat) : TFieldList → Nat → Nat
  | .nil, size => size
  | .cons f rest, size =>
    let fieldSize := f.typeObjectSize w
    if fieldSize > (((INT_MAX : Int) - (size : Int)) % (2 ^ w : Int)).toNat then
      rest.calculateObjectSizeLoop w (INT_MAX % 2 ^ w)
    else
      rest.calculateObjectSizeLoop w ((size + fieldSize) % 2 ^ w)
/-- The value of `(*mFields)[i]->type()->getObjectSize()` for a field. -/
def TField.typeObjectSize (w : Nat) : TField → Nat
  | .mk t _ => t.getObjectSize w
end

/-! ### The data-model invariant and structural identity -/

/-- The pointer is null. -/
def TAggregatePtr.isNull : TAggregatePtr → Bool
  | .null => true
  | .ptr _ => false

mutual
/-- The invariant of the data model for a type descriptor: both sizes are at least 1 (and
fit their `unsigned char`), the array length fits its `int`, the struct reference is
non-null iff the kind is struct, the interface-block reference is non-null iff the kind is
interface block, and the field types of a referenced aggregate satisfy the invariant. -/
def TType.wellFormed : TType → Bool
  | .mk ty _ _ _ _ ps ss _ n _ ib st _ =>
    decide (1 ≤ ps) && decide (ps ≤ 255) && decide (1 ≤ ss) && decide (ss ≤ 255) &&
    decide (-2147483648 ≤ n) && decide (n ≤ 2147483647) &&
    (st.isNull == !(ty == EbtStruct)) && (ib.isNull == !(ty == EbtInterfaceBlock)) &&
    st.wellFormed && ib.wellFormed
/-- The invariant for whatever the pointer refers to. -/
def TAggregatePtr.wellFormed : TAggregatePtr → Bool
  | .null => true
  | .ptr s => s.wellFormed
/-- The invariant for the field types of an aggregate. -/
def TFieldListCollection.wellFormed : TFieldListCollection → Bool
  | .mk _ _ fs => fs.wellFormed
/-- The invariant for the field types of a field list. -/
def TFieldList.wellFormed : TFieldList → Bool
  | .nil => true
  | .cons f rest => f.wellFormed && rest.wellFormed
/-- The invariant for the type of a field. -/
def TField.wellFormed : TField → Bool
  | .mk t _ => t.wellFormed
end

mutual
/-- Structural identity of two type descriptors, as the specification lists it: same basic
kind, same primary and secondary size (hence same shape), same array-ness, same array
length when they are arrays, and for a struct or an interface block structurally identical
aggregates. -/
def TType.structEq : TType → TType → Bool
  | .mk ty _ _ _ _ ps ss arr n _ ib st _, b =>
    match b with
    | .mk ty' _ _ _ _ ps' ss' arr' n' _ ib' st' _ =>
      (ty == ty') && (ps == ps') && (ss == ss') && (arr == arr') && (!arr || n == n') &&
      (!(ty == EbtStruct) || st.structEq st') &&
      (!(ty == EbtInterfaceBlock) || ib.structEq ib')
termination_by structural a => a
/-- Structural identity of what two aggregate pointers refer to. -/
def TAggregatePtr.structEq : TAggregatePtr → TAggregatePtr → Bool
  | .null, b => b.isNull
  | .ptr s, b =>
    match b with
    | .ptr s' => s.structEq s'
    | .null => false
termination_by structural a => a
/-- Structural identity of two aggregates: same class (same mangled-name mark), same name
and structurally identical field types in the same order. -/
def TFieldListCollection.structEq : TFieldListCollection → TFieldListCollection → Bool
  | .mk p nm fs, b =>
    match b with
    | .mk p' nm' fs' => (p == p') && (nm == nm') && fs.structEq fs'
termination_by structural a => a
/-- Structural identity of two field-type sequences. -/
def TFieldList.structEq : TFieldList → TFieldList → Bool
  | .nil, b =>
    match b with
    | .nil => true
    | .cons _ _ => false
  | .cons f rest, b =>
    match b with
    | .cons f' rest' => f.structEq f' && rest.structEq rest'
    | .nil => false
termination_by structural a => a
/-- Structural identity of the types of two fields. -/
def TField.structEq : TField → TField → Bool
  | .mk t _, b =>
    match b with
    | .mk t' _ => t.structEq t'
termination_by structural a => a
end

/-! ### The encoding as the specification words it -/

/-- The shape mark: `m` for a matrix, else `v` for a vector, else nothing. -/
def specShapeMark (t : TType) : TString :=
  if t.secondarySize > 1 then "m"
  else if t.primarySize > 1 ∧ t.secondarySize = 1 then "v"
  else ""

/-- The kind tag: a letter for each numeric or boolean kind, a fixed string for each
sampler kind, nothing for any other kind. -/
def specKindTag : TBasicType → TString
  | EbtFloat => "f"
  | EbtInt => "i"
  | EbtUInt => "u"
  | EbtBool => "b"
  | EbtSampler2D => "s2"
  | EbtSampler3D => "s3"
  | EbtSamplerCube => "sC"
  | EbtSampler2DArray => "s2a"
  | EbtSamplerExternalOES => "sext"
  | EbtISampler2D => "is2"
  | EbtISampler3D => "is3"
  | EbtISamplerCube => "isC"
  | EbtISampler2DArray => "is2a"
  | EbtUSampler2D => "us2"
  | EbtUSampler3D => "us3"
  | EbtUSamplerCube => "usC"
  | EbtUSampler2DArray => "us2a"
  | EbtSampler2DShadow => "s2s"
  | EbtSamplerCubeShadow => "sCs"
  | EbtSampler2DArrayShadow => "s2as"
  | _ => ""

/-- The character `'0' + size`, a byte. -/
def specSizeChar (size : Nat) : Char := Char.ofNat ((48 + size) % 256)

/-- The size characters: the primary size, and for a matrix the secondary size. -/
def specSizeChars (t : TType) : TString :=
  if t.secondarySize > 1 then
    String.singleton (specSizeChar t.primarySize) ++
      String.singleton (specSizeChar t.secondarySize)
  else String.singleton (specSizeChar t.primarySize)

/-- The array suffix: for an array, the decimal array length between brackets. -/
def specArraySuffix (t : TType) : TString :=
  if t.array then "[" ++ formatInt t.arraySize ++ "]" else ""

/-- The text that stands where the kind tag stands: for a struct or an interface block
the mangled name of the referenced aggregate (`none` for a null pointer), for any other
kind its tag. -/
def specKindPart (t : TType) : Option TString :=
  match t.type with
  | EbtStruct => t.struct_.mangledName
  | EbtInterfaceBlock => t.interfaceBlock.mangledName
  | k => some (specKindTag k)

/-- Each mangled field-type name, preceded by a dash, in order. -/
def specFieldsPart : List TString → TString
  | [] => ""
  | m :: ms => "-" ++ m ++ specFieldsPart ms

/-- The mangled names of the field types, in declaration order; `none` when one of them
runs into a null aggregate pointer. -/
def TFieldList.mangledNames : TFieldList → Option (List TString)
  | .nil => some []
  | .cons f rest =>
    match f.type.getMangledName, rest.mangledNames with
    | some m, some ms => some (m :: ms)
    | _, _ => none

/-- The sum of the object sizes of the fields, as a natural number. -/
def TFieldList.sumObjectSizes (w : Nat) (fs : TFieldList) : Nat :=
  (fs.toList.map (fun f => f.type.getObjectSize w)).sum

/-- A non-array descriptor of a numeric, boolean or sampler kind. -/
def exBasic (ty : TBasicType) (primarySize secondarySize : Nat) : TType :=
  .mk ty 0 0 false 0 primarySize secondarySize false 0 0 .null .null 0

/-- An array descriptor of a numeric, boolean or sampler kind. -/
def exArray (ty : TBasicType) (primarySize secondarySize : Nat) (arraySize : Int) : TType :=
  .mk ty 0 0 false 0 primarySize secondarySize true arraySize 0 .null .null 0

/-- A non-array descriptor of struct kind that refers to the aggregate `s`. -/
def exStructType (s : TFieldListCollection) (nesting : Int) : TType :=
  .mk EbtStruct 0 0 false 0 1 1 false 0 0 .null (.ptr s) nesting

/-- The aggregate `struct S { float a; int b[4]; }`. -/
def exStructS : TFieldListCollection :=
  .mk "struct-" "S"
    (.cons (.mk (exBasic EbtFloat 1 1) "a") (.cons (.mk (exArray EbtInt 1 1 4) "b") .nil))

/-- The table with the 100-only and the 300-only built-in levels replaced by empty
levels; every other level is kept. -/
def TSymbolTable.withoutVersionLevels (t : TSymbolTable) : TSymbolTable :=
  { table := (t.table.set ESSL1_BUILTINS.toNat { level := [] }).set ESSL3_BUILTINS.toNat
      { level := [] } }

/-- The loop of `TSymbolTable::find` once more, with the same control flow, returning
next to the result the indices at which `table[level]` is subscripted, in order. -/
def TSymbolTable.findLoopTraced (t : TSymbolTable) (name : TString) (shaderVersion : Int) :
    Nat → Int → Except Fault (Option TSymbol × Int) × List Int
  | 0, _ => (.error .outOfFuel, [])
  | fuel + 1, level =>
    match skipVersionSpecificLevels shaderVersion (level.toNat + 1) level with
    | .error e => (.error e, [])
    | .ok level =>
      match t.levelAt level with
      | .error e => (.error e, [level])
      | .ok l =>
        match l.find name with
        | some symbol => (.ok (some symbol, level), [level])
        | none =>
          if level - 1 ≥ 0 then
            ((t.findLoopTraced name shaderVersion fuel (level - 1)).1,
              level :: (t.findLoopTraced name shaderVersion fuel (level - 1)).2)
          else (.ok (none, level - 1), [level])

/-- The loop of `TSymbolTable::findBuiltIn` once more, with the same control flow,
returning next to the result the indices at which `table[level]` is subscripted. -/
def TSymbolTable.findBuiltInLoopTraced (t : TSymbolTable) (name : TString)
    (shaderVersion : Int) : Nat → Int → Except Fault (Option TSymbol) × List Int
  | 0, _ => (.error .outOfFuel, [])
  | fuel + 1, level =>
    if level ≥ 0 then
      match skipVersionSpecificLevels shaderVersion (level.toNat + 1) level with
      | .error e => (.error e, [])
      | .ok level =>
        match t.levelAt level with
        | .error e => (.error e, [level])
        | .ok l =>
          match l.find name with
          | some symbol => (.ok (some symbol), [level])
          | none =>
            ((t.findBuiltInLoopTraced name shaderVersion fuel (level - 1)).1,
              level :: (t.findBuiltInLoopTraced name shaderVersion fuel (level - 1)).2)
    else (.ok none, [])

/-- The indices at which a call of `find` subscripts the level table. -/
def TSymbolTable.findAccesses (t : TSymbolTable) (name : TString) (shaderVersion : Int) :
    List Int :=
  (t.findLoopTraced name shaderVersion (t.table.length + 1) t.currentLevel).2

/-- The indices at which a call of `findBuiltIn` subscripts the level table. -/
def TSymbolTable.findBuiltInAccesses (t : TSymbolTable) (name : TString)
    (shaderVersion : Int) : List Int :=
  (t.findBuiltInLoopTraced name shaderVersion (LAST_BUILTIN_LEVEL.toNat + 2)
    LAST_BUILTIN_LEVEL).2

/-- A table with the three built-in levels and one user level: `bar` is in the 100-only
level and nowhere else. -/
def exTableGated : TSymbolTable :=
  { table := [{ level := [] }, { level := [("bar", exBuiltInFoo)] }, { level := [] },
              { level := [] }] }

/-! ## Construction, struct size, nesting depth and containment -/

/-- Modelled from the spec: the struct `TPublicType` is declared in the header; the spec
lists what the grammar layer hands over: basic kind, precision, qualifier, invariance,
layout qualifier, primary and secondary size, array-ness and array size, and an optional
reference to a user-defined type (`userDef`, on which the source calls `getStruct()`). -/
structure TPublicType where
  type : TBasicType
  precision : Nat
  qualifier : Nat
  invariant : Bool
  layoutQualifier : Nat
  primarySize : Nat
  secondarySize : Nat
  array : Bool
  arraySize : Int
  userDef : Option TType

/-- Modelled from the spec: `TType::getStruct` is defined in the header: the reference to
the struct definition of the descriptor, null when there is none. -/
def TType.getStruct (t : TType) : TAggregatePtr := t.struct_

/-- Modelled from the spec: `TType::getBasicType` is defined in the header: the basic kind
of the descriptor. -/
def TType.getBasicType (t : TType) : TBasicType := t.type

/-- Modelled from the spec: `TType::getDeepestStructNesting` is defined in the header: the
memoized deepest-struct-nesting value of the descriptor. -/
def TType.getDeepestStructNesting (t : TType) : Int := t.deepestStructNesting

/-- The `for` loop of `TStructure::calculateDeepestNesting`, from the running maximum
`maxNesting`. -/
def TFieldList.calculateDeepestNestingLoop : TFieldList → Int → Int
  | .nil, maxNesting => maxNesting
  | .cons f rest, maxNesting =>
    rest.calculateDeepestNestingLoop (max maxNesting f.type.getDeepestStructNesting)

/-- `TStructure::calculateDeepestNesting`. The `int` sum `1 + maxNesting` is exact: a
nesting depth stays far below `INT_MAX`. -/
def TStructure.calculateDeepestNesting (s : TFieldListCollection) : Int :=
  1 + s.mFields.calculateDeepestNestingLoop 0

/-- Modelled from the spec: `TStructure::deepestNesting` is defined in the header: the
lazily computed value of `calculateDeepestNesting()`. -/
def TStructure.deepestNesting (s : TFieldListCollection) : Int :=
  TStructure.calculateDeepestNesting s

/-- `TType::computeDeepestStructNesting`: the descriptor after the assignment
`deepestStructNesting = structure ? structure->deepestNesting() : 0`. -/
def TType.computeDeepestStructNesting : TType → TType
  | .mk ty pr q inv lq ps ss arr n mx ib st _ =>
    .mk ty pr q inv lq ps ss arr n mx ib st
      (match st with
       | .null => 0
       | .ptr s => TStructure.deepestNesting s)

/-- The constructor `TType::TType(const TPublicType &p)` (a function cannot bear the name
of its own type here): the member initializers, then
for a non-null `p.userDef` the assignment `structure = p.userDef->getStruct()` followed
by `computeDeepestStructNesting()`. -/
def TType.fromPublicType (p : TPublicType) : TType :=
  match p.userDef with
  | some userDef =>
    TType.computeDeepestStructNesting
      (.mk p.type p.precision p.qualifier p.invariant p.layoutQualifier p.primarySize
        p.secondarySize p.array p.arraySize 0 .null userDef.getStruct 0)
  | none =>
    .mk p.type p.precision p.qualifier p.invariant p.layoutQualifier p.primarySize
      p.secondarySize p.array p.arraySize 0 .null .null 0

/-- What a call of `TType::getStructSize` does: whether `assert(false && "Not a struct")`
was reached, and the value returned when the assertion is compiled out. -/
structure StructSizeResult where
  assertionFailed : Bool
  value : Nat
  deriving DecidableEq, Repr

/-- Modelled from the spec: `objectSize()` of an aggregate is defined in the header: the
lazily computed value of `calculateObjectSize()`. -/
def TFieldListCollection.objectSize (w : Nat) (s : TFieldListCollection) : Nat :=
  s.calculateObjectSize w

/-- `TType::getStructSize`, with a `size_t` of `w` bits. -/
def TType.getStructSize (w : Nat) (t : TType) : StructSizeResult :=
  match t.getStruct with
  | .null => { assertionFailed := true, value := 0 }
  | .ptr s => { assertionFailed := false, value := s.objectSize w }

mutual
/-- Modelled from the spec: `TType::isStructureContainingArrays` is defined in the header:
the type of the field is an aggregate that contains arrays; false without a struct. -/
def TType.isStructureContainingArrays : TType → Bool
  | .mk _ _ _ _ _ _ _ _ _ _ _ st _ => st.containsArrays
/-- The call `structure->containsArrays()` through a pointer, false for the null pointer. -/
def TAggregatePtr.containsArrays : TAggregatePtr → Bool
  | .null => false
  | .ptr s => TStructure.containsArrays s
/-- `TStructure::containsArrays`. -/
def TStructure.containsArrays : TFieldListCollection → Bool
  | .mk _ _ mFields => mFields.containsArraysLoop
/-- The `for` loop of `TStructure::containsArrays`. -/
def TFieldList.containsArraysLoop : TFieldList → Bool
  | .nil => false
  | .cons f rest => if f.isArrayOrContainsArrays then true else rest.containsArraysLoop
/-- The condition `fieldType->isArray() || fieldType->isStructureContainingArrays()`. -/
def TField.isArrayOrContainsArrays : TField → Bool
  | .mk t _ => t.isArray || t.isStructureContainingArrays
end

mutual
/-- Modelled from the spec: `TType::isStructureContainingType` is defined in the header:
the nested aggregate of the field contains the kind; false without a struct. -/
def TType.isStructureContainingType (type : TBasicType) : TType → Bool
  | .mk _ _ _ _ _ _ _ _ _ _ _ st _ => st.containsType type
/-- The call `structure->containsType(type)` through a pointer, false for the null
pointer. -/
def TAggregatePtr.containsType (type : TBasicType) : TAggregatePtr → Bool
  | .null => false
  | .ptr s => TStructure.containsType type s
/-- `TStructure::containsType`. -/
def TStructure.containsType (type : TBasicType) : TFieldListCollection → Bool
  | .mk _ _ mFields => mFields.containsTypeLoop type
/-- The `for` loop of `TStructure::containsType`. -/
def TFieldList.containsTypeLoop (type : TBasicType) : TFieldList → Bool
  | .nil => false
  | .cons f rest => if f.hasOrContainsType type then true else rest.containsTypeLoop type
/-- The condition
`fieldType->getBasicType() == type || fieldType->isStructureContainingType(type)`. -/
def TField.hasOrContainsType (type : TBasicType) : TField → Bool
  | .mk t _ => (t.getBasicType == type) || t.isStructureContainingType type
end

mutual
/-- Modelled from the spec: `TType::isStructureContainingSamplers` is defined in the
header: the nested aggregate of the field contains samplers; false without a struct. -/
def TType.isStructureContainingSamplers : TType → Bool
  | .mk _ _ _ _ _ _ _ _ _ _ _ st _ => st.containsSamplers
/-- The call `structure->containsSamplers()` through a pointer, false for the null
pointer. -/
def TAggregatePtr.containsSamplers : TAggregatePtr → Bool
  | .null => false
  | .ptr s => TStructure.containsSamplers s
/-- `TStructure::containsSamplers`. -/
def TStructure.containsSamplers : TFieldListCollection → Bool
  | .mk _ _ mFields => mFields.containsSamplersLoop
/-- The `for` loop of `TStructure::containsSamplers`. -/
def TFieldList.containsSamplersLoop : TFieldList → Bool
  | .nil => false
  | .cons f rest => if f.isOrContainsSamplers then true else rest.containsSamplersLoop
/-- The condition
`IsSampler(fieldType->getBasicType()) || fieldType->isStructureContainingSamplers()`. -/
def TField.isOrContainsSamplers : TField → Bool
  | .mk t _ => IsSampler t.getBasicType || t.isStructureContainingSamplers
end

mutual
/-- The fields reachable from a descriptor through its struct reference, at any depth. -/
def TType.nestedFields : TType → List TField
  | .mk _ _ _ _ _ _ _ _ _ _ _ st _ => st.reachableFields
/-- The fields reachable from what the pointer refers to; none for the null pointer. -/
def TAggregatePtr.reachableFields : TAggregatePtr → List TField
  | .null => []
  | .ptr s => s.reachableFields
/-- The fields of an aggregate at any nesting depth reachable through struct-typed
fields: its own fields and, after each, the fields reachable from the type of it. -/
def TFieldListCollection.reachableFields : TFieldListCollection → List TField
  | .mk _ _ mFields => mFields.reachableFields
/-- The fields of a field list and the fields reachable from their types. -/
def TFieldList.reachableFields : TFieldList → List TField
  | .nil => []
  | .cons f rest => f :: (f.nestedFields ++ rest.reachableFields)
/-- The fields reachable from the type of a field. -/
def TField.nestedFields : TField → List TField
  | .mk t _ => t.nestedFields
end

/-- The component count of a scalar, vector or matrix: the product of both sizes for a
matrix, the primary size otherwise. -/
def specComponentCount (t : TType) : Nat :=
  if t.secondarySize > 1 then t.primarySize * t.secondarySize else t.primarySize

/-- The descriptor has a non-null aggregate reference. -/
def TType.hasAggregateReference (t : TType) : Bool :=
  !t.struct_.isNull || !t.interfaceBlock.isNull

/-! ### Example public types and aggregates -/

/-- The public type of `float`. -/
def exPublicFloat : TPublicType :=
  { type := EbtFloat, precision := 0, qualifier := 0, invariant := false,
    layoutQualifier := 0, primarySize := 1, secondarySize := 1, array := false,
    arraySize := 0, userDef := none }

/-- The public type of `float [3]`. -/
def exPublicFloatArray : TPublicType :=
  { type := EbtFloat, precision := 0, qualifier := 0, invariant := false,
    layoutQualifier := 0, primarySize := 1, secondarySize := 1, array := true,
    arraySize := 3, userDef := none }

/-- The public type of `sampler2D`. -/
def exPublicSampler : TPublicType :=
  { type := EbtSampler2D, precision := 0, qualifier := 0, invariant := false,
    layoutQualifier := 0, primarySize := 1, secondarySize := 1, array := false,
    arraySize := 0, userDef := none }

/-- A public type of struct kind whose `userDef` is null. -/
def exPublicStructWithoutDef : TPublicType :=
  { type := EbtStruct, precision := 0, qualifier := 0, invariant := false,
    layoutQualifier := 0, primarySize := 1, secondarySize := 1, array := false,
    arraySize := 0, userDef := none }

/-- The public type of a variable of the struct `s`: struct kind, `userDef` referring to
the descriptor of the struct. -/
def exPublicStruct (s : TFieldListCollection) : TPublicType :=
  { type := EbtStruct, precision := 0, qualifier := 0, invariant := false,
    layoutQualifier := 0, primarySize := 1, secondarySize := 1, array := false,
    arraySize := 0, userDef := some (exStructType s 0) }

/-- The aggregate `struct Inner { float x; float y[3]; sampler2D t; }`. -/
def exInner : TFieldListCollection :=
  .mk "struct-" "Inner"
    (.cons (.mk (TType.fromPublicType exPublicFloat) "x")
      (.cons (.mk (TType.fromPublicType exPublicFloatArray) "y")
        (.cons (.mk (TType.fromPublicType exPublicSampler) "t") .nil)))

/-- The aggregate `struct Outer { Inner i; }`. -/
def exOuter : TFieldListCollection :=
  .mk "struct-" "Outer" (.cons (.mk (TType.fromPublicType (exPublicStruct exInner)) "i") .nil)

/-- The aggregate `struct Plain { float x; }`. -/
def exPlain : TFieldListCollection :=
  .mk "struct-" "Plain" (.cons (.mk (TType.fromPublicType exPublicFloat) "x") .nil)

/-- An interface block with one `float` member, and its descriptor: kind interface block,
interface-block reference set, no struct reference. -/
def exBlock : TFieldListCollection :=
  .mk "iblock-" "B" (.cons (.mk (exBasic EbtFloat 1 1) "m") .nil)

/-- The descriptor of the interface block `exBlock`. -/
def exBlockType : TType :=
  .mk EbtInterfaceBlock 0 0 false 0 1 1 false 0 0 (.ptr exBlock) .null 0

/-! ## Theorems: symbol table -/

theorem isSkippedLevel_zero (v : Int) : isSkippedLevel 0 v = false := by
  simp [isSkippedLevel, ESSL3_BUILTINS, ESSL1_BUILTINS]

theorem isSkippedLevel_iff (i : Nat) (v : Int) :
    isSkippedLevel (i : Int) v = true ↔ ¬ isEligibleLevel i v := by
  simp only [isSkippedLevel, isEligibleLevel, Bool.or_eq_true, Bool.and_eq_true, beq_iff_eq,
    bne_iff_ne, not_not]

theorem isSkippedLevel_eq_false_iff (i : Nat) (v : Int) :
    isSkippedLevel (i : Int) v = false ↔ isEligibleLevel i v := by
  rw [← Bool.not_eq_true, isSkippedLevel_iff, not_not]

theorem skip_of_not_skipped (v : Int) (fuel : Nat) (level : Int)
    (h : isSkippedLevel level v = false) :
    skipVersionSpecificLevels v (fuel + 1) level = .ok level := by
  simp [skipVersionSpecificLevels, h]

theorem skip_of_skipped (v : Int) (n : Nat) (h : isSkippedLevel ((n : Int) + 1) v = true) :
    skipVersionSpecificLevels v (((n : Int) + 1).toNat + 1) ((n : Int) + 1) =
      skipVersionSpecificLevels v ((n : Int).toNat + 1) (n : Int) := by
  have e1 : ((n : Int) + 1).toNat = n + 1 := by omega
  have e2 : (n : Int).toNat = n := by omega
  rw [e1, e2]
  show skipVersionSpecificLevels v ((n + 1) + 1) ((n : Int) + 1) = _
  rw [skipVersionSpecificLevels]
  simp [h]

theorem levelAt_of_lt (t : TSymbolTable) (n : Nat) (h : n < t.table.length) :
    ∃ l, t.levelAt (n : Int) = .ok l ∧ t.table[n]? = some l := by
  obtain ⟨l, hl⟩ : ∃ l, t.table[n]? = some l := ⟨t.table[n], List.getElem?_eq_getElem h⟩
  refine ⟨l, ?_, hl⟩
  have e2 : (n : Int).toNat = n := by omega
  simp [TSymbolTable.levelAt, e2, hl]

theorem findLoop_of_skipped (t : TSymbolTable) (name : TString) (v : Int) (fuel n : Nat)
    (h : isSkippedLevel ((n : Int) + 1) v = true) :
    t.findLoop name v (fuel + 1) ((n : Int) + 1) = t.findLoop name v (fuel + 1) (n : Int) := by
  rw [TSymbolTable.findLoop, TSymbolTable.findLoop, skip_of_skipped v n h]

/-- The loop of `find`, started at an existing level with enough fuel, terminates and
computes the downward scan `resolveFrom`. -/
theorem findLoop_eq_resolveFrom (t : TSymbolTable) (name : TString) (v : Int) :
    ∀ (n fuel : Nat), n < t.table.length → n + 1 ≤ fuel →
      t.findLoop name v fuel (n : Int) =
        .ok (match t.resolveFrom name v n with
             | some (s, i) => (some s, (i : Int))
             | none => (none, -1)) := by
  intro n
  induction n with
  | zero =>
    intro fuel hlen hfuel
    obtain ⟨f, rfl⟩ : ∃ f, fuel = f + 1 := ⟨fuel - 1, by omega⟩
    obtain ⟨l, hl, hg⟩ := levelAt_of_lt t 0 hlen
    have hs := skip_of_not_skipped v 0 0 (isSkippedLevel_zero v)
    simp only [Nat.cast_zero] at hl ⊢
    rw [TSymbolTable.findLoop]
    simp only [Int.toNat_zero, Nat.zero_add, hs, hl]
    simp only [TSymbolTable.resolveFrom, isSkippedLevel_zero, TSymbolTable.symbolAt, hg,
      Option.bind_some]
    cases hf : l.find name <;> simp [hf]
  | succ n ih =>
    intro fuel hlen hfuel
    obtain ⟨f, rfl⟩ : ∃ f, fuel = f + 1 := ⟨fuel - 1, by omega⟩
    by_cases hsk : isSkippedLevel ((n : Int) + 1) v = true
    · have := findLoop_of_skipped t name v f n hsk
      simp only [Nat.cast_succ] at this ⊢
      rw [this, ih (f + 1) (by omega) (by omega)]
      simp [TSymbolTable.resolveFrom, hsk]
    · have hsk' : isSkippedLevel ((n : Int) + 1) v = false := by simpa using hsk
      obtain ⟨l, hl, hg⟩ := levelAt_of_lt t (n + 1) hlen
      have hs := skip_of_not_skipped v (((n : Int) + 1).toNat) ((n : Int) + 1) hsk'
      simp only [Nat.cast_succ] at hl ⊢
      rw [TSymbolTable.findLoop]
      simp only [hs, hl]
      simp only [TSymbolTable.resolveFrom, hsk', TSymbolTable.symbolAt, hg, Option.bind_some]
      cases hf : l.find name with
      | some s => simp [hf]
      | none =>
        have h0 : (n : Int) + 1 - 1 ≥ 0 := by omega
        have h1 : (n : Int) + 1 - 1 = (n : Int) := by omega
        simp only [h0, if_true, h1]
        rw [ih f (by omega) (by omega)]
        simp [hf]

/-- What it means for level `i` to resolve `name` to `s` in a scan that starts at level
`n`: it is searched, holds `s` under the name, and no searched level above it up to `n`
holds the name. -/
theorem resolveFrom_sound (t : TSymbolTable) (name : TString) (v : Int) :
    ∀ n : Nat,
      (∀ s i, t.resolveFrom name v n = some (s, i) →
        i ≤ n ∧ isEligibleLevel i v ∧ t.symbolAt i name = some s ∧
          ∀ j, i < j → j ≤ n → isEligibleLevel j v → t.symbolAt j name = none) ∧
      (t.resolveFrom name v n = none →
        ∀ i, i ≤ n → isEligibleLevel i v → t.symbolAt i name = none) := by
  intro n
  induction n with
  | zero =>
    have h0 : isEligibleLevel 0 v := (isSkippedLevel_eq_false_iff 0 v).1 (isSkippedLevel_zero v)
    constructor
    · intro s i h
      simp only [TSymbolTable.resolveFrom, isSkippedLevel_zero] at h
      cases hs : t.symbolAt 0 name with
      | none => simp [hs] at h
      | some s' =>
        simp only [hs, Option.map_some', Option.some.injEq, Prod.mk.injEq] at h
        obtain ⟨rfl, rfl⟩ := h
        exact ⟨le_refl _, h0, hs, fun j h1 h2 => by omega⟩
    · intro h i hi _
      simp only [TSymbolTable.resolveFrom, isSkippedLevel_zero] at h
      have : i = 0 := by omega
      subst this
      cases hs : t.symbolAt 0 name with
      | none => rfl
      | some s' => simp [hs] at h
  | succ n ih =>
    obtain ⟨ih1, ih2⟩ := ih
    by_cases hsk : isSkippedLevel ((n : Int) + 1) v = true
    · have hne : ¬ isEligibleLevel (n + 1) v := by
        have := (isSkippedLevel_iff (n + 1) v).1 (by simpa using hsk)
        exact this
      have hr : t.resolveFrom name v (n + 1) = t.resolveFrom name v n := by
        simp [TSymbolTable.resolveFrom, hsk]
      constructor
      · intro s i h
        rw [hr] at h
        obtain ⟨a, b, c, d⟩ := ih1 s i h
        refine ⟨by omega, b, c, fun j h1 h2 h3 => ?_⟩
        by_cases hj : j = n + 1
        · subst hj; exact absurd h3 hne
        · exact d j h1 (by omega) h3
      · intro h i hi hel
        rw [hr] at h
        by_cases hj : i = n + 1
        · subst hj; exact absurd hel hne
        · exact ih2 h i (by omega) hel
    · have hsk' : isSkippedLevel ((n : Int) + 1) v = false := by simpa using hsk
      have hel : isEligibleLevel (n + 1) v :=
        (isSkippedLevel_eq_false_iff (n + 1) v).1 (by simpa using hsk')
      cases hs : t.symbolAt (n + 1) name with
      | some s' =>
        have hr : t.resolveFrom name v (n + 1) = some (s', n + 1) := by
          simp [TSymbolTable.resolveFrom, hsk', hs]
        constructor
        · intro s i h
          rw [hr] at h
          simp only [Option.some.injEq, Prod.mk.injEq] at h
          obtain ⟨rfl, rfl⟩ := h
          exact ⟨le_refl _, hel, hs, fun j h1 h2 => by omega⟩
        · intro h
          rw [hr] at h
          exact absurd h (by simp)
      | none =>
        have hr : t.resolveFrom name v (n + 1) = t.resolveFrom name v n := by
          simp [TSymbolTable.resolveFrom, hsk', hs]
        constructor
        · intro s i h
          rw [hr] at h
          obtain ⟨a, b, c, d⟩ := ih1 s i h
          refine ⟨by omega, b, c, fun j h1 h2 h3 => ?_⟩
          by_cases hj : j = n + 1
          · subst hj; exact hs
          · exact d j h1 (by omega) h3
        · intro h i hi hel'
          rw [hr] at h
          by_cases hj : i = n + 1
          · subst hj; exact hs
          · exact ih2 h i (by omega) hel'

theorem resolveFrom_some_iff (t : TSymbolTable) (name : TString) (v : Int) (n : Nat)
    (s : TSymbol) (i : Nat) :
    t.resolveFrom name v n = some (s, i) ↔
      (i ≤ n ∧ isEligibleLevel i v ∧ t.symbolAt i name = some s ∧
        ∀ j, i < j → j ≤ n → isEligibleLevel j v → t.symbolAt j name = none) := by
  constructor
  · exact (resolveFrom_sound t name v n).1 s i
  · rintro ⟨hi, hel, hs, hmax⟩
    cases hr : t.resolveFrom name v n with
    | none =>
      have := (resolveFrom_sound t name v n).2 hr i hi hel
      rw [hs] at this
      exact absurd this (by simp)
    | some p =>
      obtain ⟨s', i'⟩ := p
      obtain ⟨hi', hel', hs', hmax'⟩ := (resolveFrom_sound t name v n).1 s' i' hr
      have hii : i = i' := by
        rcases Nat.lt_trichotomy i i' with h | h | h
        · have := hmax i' h hi' hel'
          rw [hs'] at this
          exact absurd this (by simp)
        · exact h
        · have := hmax' i h hi hel
          rw [hs] at this
          exact absurd this (by simp)
      subst hii
      rw [hs] at hs'
      simp only [Option.some.injEq] at hs'
      subst hs'
      rfl

theorem resolveFrom_none_iff (t : TSymbolTable) (name : TString) (v : Int) (n : Nat) :
    t.resolveFrom name v n = none ↔
      ∀ i, i ≤ n → isEligibleLevel i v → t.symbolAt i name = none := by
  constructor
  · exact (resolveFrom_sound t name v n).2
  · intro h
    cases hr : t.resolveFrom name v n with
    | none => rfl
    | some p =>
      obtain ⟨s', i'⟩ := p
      obtain ⟨hi', hel', hs', _⟩ := (resolveFrom_sound t name v n).1 s' i' hr
      have := h i' hi' hel'
      rw [hs'] at this
      exact absurd this (by simp)

/-- The cursor value with which the loop of `find` is left. -/
theorem find_eq_resolveFrom (t : TSymbolTable) (name : TString) (v : Int)
    (h : t.table ≠ []) :
    t.find name v = .ok
      (match t.resolveFrom name v (t.table.length - 1) with
       | some (s, i) =>
         { symbol := some s
           builtIn := decide ((i : Int) ≤ LAST_BUILTIN_LEVEL)
           sameScope := decide ((i : Int) = t.currentLevel) }
       | none =>
         { symbol := none
           builtIn := decide ((-1 : Int) ≤ LAST_BUILTIN_LEVEL)
           sameScope := decide ((-1 : Int) = t.currentLevel) }) := by
  have hpos : 0 < t.table.length := List.length_pos.2 h
  have hcur : t.currentLevel = ((t.table.length - 1 : Nat) : Int) := by
    simp only [TSymbolTable.currentLevel]; omega
  have hloop := findLoop_eq_resolveFrom t name v (t.table.length - 1) (t.table.length + 1)
    (by omega) (by omega)
  rw [TSymbolTable.find, hcur, hloop]
  cases hr : t.resolveFrom name v (t.table.length - 1) with
  | none => rfl
  | some p => obtain ⟨s, i⟩ := p; rfl

theorem findBuiltInLoop_of_skipped (t : TSymbolTable) (name : TString) (v : Int)
    (fuel n : Nat) (h : isSkippedLevel ((n : Int) + 1) v = true) :
    t.findBuiltInLoop name v (fuel + 1) ((n : Int) + 1) =
      t.findBuiltInLoop name v (fuel + 1) (n : Int) := by
  have h1 : (n : Int) + 1 ≥ 0 := by omega
  have h2 : (n : Int) ≥ 0 := by omega
  rw [TSymbolTable.findBuiltInLoop, TSymbolTable.findBuiltInLoop, skip_of_skipped v n h]
  simp only [h1, h2, if_true]

/-- The loop of `findBuiltIn`, started at an existing level with enough fuel, terminates
and computes the downward scan `resolveFrom`. -/
theorem findBuiltInLoop_eq_resolveFrom (t : TSymbolTable) (name : TString) (v : Int) :
    ∀ (n fuel : Nat), n < t.table.length → n + 2 ≤ fuel →
      t.findBuiltInLoop name v fuel (n : Int) =
        .ok ((t.resolveFrom name v n).map Prod.fst) := by
  intro n
  induction n with
  | zero =>
    intro fuel hlen hfuel
    obtain ⟨f, rfl⟩ : ∃ f, fuel = f + 2 := ⟨fuel - 2, by omega⟩
    obtain ⟨l, hl, hg⟩ := levelAt_of_lt t 0 hlen
    have hs := skip_of_not_skipped v 0 0 (isSkippedLevel_zero v)
    simp only [Nat.cast_zero] at hl ⊢
    rw [TSymbolTable.findBuiltInLoop]
    simp only [Int.toNat_zero, Nat.zero_add, hs, hl, ge_iff_le, le_refl, if_true]
    simp only [TSymbolTable.resolveFrom, isSkippedLevel_zero, TSymbolTable.symbolAt, hg,
      Option.bind_some]
    cases hf : l.find name with
    | some s => simp [hf]
    | none =>
      rw [TSymbolTable.findBuiltInLoop]
      simp [hf]
  | succ n ih =>
    intro fuel hlen hfuel
    obtain ⟨f, rfl⟩ : ∃ f, fuel = f + 1 := ⟨fuel - 1, by omega⟩
    by_cases hsk : isSkippedLevel ((n : Int) + 1) v = true
    · have := findBuiltInLoop_of_skipped t name v f n hsk
      simp only [Nat.cast_succ] at this ⊢
      rw [this, ih (f + 1) (by omega) (by omega)]
      simp [TSymbolTable.resolveFrom, hsk]
    · have hsk' : isSkippedLevel ((n : Int) + 1) v = false := by simpa using hsk
      obtain ⟨l, hl, hg⟩ := levelAt_of_lt t (n + 1) hlen
      have hs := skip_of_not_skipped v (((n : Int) + 1).toNat) ((n : Int) + 1) hsk'
      have hge : (n : Int) + 1 ≥ 0 := by omega
      simp only [Nat.cast_succ] at hl ⊢
      rw [TSymbolTable.findBuiltInLoop]
      simp only [hs, hl, hge, if_true]
      simp only [TSymbolTable.resolveFrom, hsk', TSymbolTable.symbolAt, hg, Option.bind_some]
      cases hf : l.find name with
      | some s => simp [hf]
      | none =>
        have h1 : (n : Int) + 1 - 1 = (n : Int) := by omega
        simp only [h1]
        rw [ih f (by omega) (by omega)]
        simp [hf]

theorem findBuiltIn_eq_resolveFrom (t : TSymbolTable) (name : TString) (v : Int)
    (h : 3 ≤ t.table.length) :
    t.findBuiltIn name v = .ok ((t.resolveFrom name v 2).map Prod.fst) := by
  have := findBuiltInLoop_eq_resolveFrom t name v 2 4 (by omega) (by omega)
  simpa [TSymbolTable.findBuiltIn, LAST_BUILTIN_LEVEL, ESSL3_BUILTINS] using this

theorem symbolAt_take (t : TSymbolTable) (name : TString) (k i : Nat) (h : i < k) :
    TSymbolTable.symbolAt { table := t.table.take k } i name = t.symbolAt i name := by
  simp [TSymbolTable.symbolAt, List.getElem?_take, h]

theorem resolveFrom_take (t : TSymbolTable) (name : TString) (v : Int) (k : Nat) :
    ∀ n, n < k →
      TSymbolTable.resolveFrom { table := t.table.take k } name v n =
        t.resolveFrom name v n := by
  intro n
  induction n with
  | zero =>
    intro h
    simp only [TSymbolTable.resolveFrom, symbolAt_take t name k 0 h]
  | succ n ih =>
    intro h
    simp only [TSymbolTable.resolveFrom, symbolAt_take t name k (n + 1) h, ih (by omega)]

theorem isEligibleLevel_two (v : Int) : isEligibleLevel 2 v ↔ v = 300 := by
  simp [isEligibleLevel, ESSL3_BUILTINS, ESSL1_BUILTINS]

theorem isEligibleLevel_one (v : Int) : isEligibleLevel 1 v ↔ v = 100 := by
  simp [isEligibleLevel, ESSL3_BUILTINS, ESSL1_BUILTINS]

theorem isEligibleLevel_of_user (i : Nat) (v : Int) (h : 3 ≤ i) : isEligibleLevel i v := by
  simp only [isEligibleLevel, ESSL3_BUILTINS, ESSL1_BUILTINS]
  omega

theorem three_le_length_of_last_le_current (t : TSymbolTable)
    (hb : LAST_BUILTIN_LEVEL ≤ t.currentLevel) : 3 ≤ t.table.length := by
  simp only [LAST_BUILTIN_LEVEL, ESSL3_BUILTINS, TSymbolTable.currentLevel] at hb
  omega

/-- The pointer returned by `find` on a table with at least one level. -/
theorem find_symbol_eq (t : TSymbolTable) (name : TString) (v : Int) (h : t.table ≠ []) :
    ∃ r, t.find name v = .ok r ∧
      r.symbol = (t.resolveFrom name v (t.table.length - 1)).map Prod.fst := by
  refine ⟨_, find_eq_resolveFrom t name v h, ?_⟩
  cases hr : t.resolveFrom name v (t.table.length - 1) with
  | none => rfl
  | some p => obtain ⟨s, i⟩ := p; rfl

/-- A name held by exactly one level `k` is resolved by a scan from `n ≥ k` iff level `k`
is searched. -/
theorem resolveFrom_of_only_level (t : TSymbolTable) (name : TString) (v : Int)
    (k n : Nat) (s : TSymbol) (hk : k ≤ n) (hs : t.symbolAt k name = some s)
    (ho : ∀ i, i ≠ k → t.symbolAt i name = none) :
    (isEligibleLevel k v → t.resolveFrom name v n = some (s, k)) ∧
    (¬ isEligibleLevel k v → t.resolveFrom name v n = none) := by
  constructor
  · intro hel
    exact (resolveFrom_some_iff t name v n s k).2
      ⟨hk, hel, hs, fun j h1 _ _ => ho j (by omega)⟩
  · intro hel
    refine (resolveFrom_none_iff t name v n).2 (fun i _ hi => ?_)
    by_cases hik : i = k
    · subst hik; exact absurd hi hel
    · exact ho i hik

theorem exTable300_only (i : Nat) (h : i ≠ ESSL3_BUILTINS.toNat) :
    exTable300.symbolAt i "foo" = none := by
  rcases i with _ | _ | _ | i
  · rfl
  · rfl
  · exact absurd rfl h
  · simp [TSymbolTable.symbolAt, exTable300]

theorem exTable100_only (i : Nat) (h : i ≠ ESSL1_BUILTINS.toNat) :
    exTable100.symbolAt i "foo" = none := by
  rcases i with _ | _ | _ | i
  · rfl
  · exact absurd rfl h
  · rfl
  · simp [TSymbolTable.symbolAt, exTable100]

/-- On a table without any level `find` subscripts the level vector at `-1`. -/
theorem find_of_empty_table (name : TString) (v : Int) :
    TSymbolTable.find { table := [] } name v = .error .outOfBounds := by
  have hs : isSkippedLevel (-1) v = false := by
    simp [isSkippedLevel, ESSL3_BUILTINS, ESSL1_BUILTINS]
  have h1 : skipVersionSpecificLevels v 1 (-1) = .ok (-1) := skip_of_not_skipped v 0 (-1) hs
  simp [TSymbolTable.find, TSymbolTable.findLoop, TSymbolTable.currentLevel, h1,
    TSymbolTable.levelAt]

/-! ### Claims about lookup -/

/-- C1. On a table with at least one level, `find` terminates without fault, and the
symbol it returns is the one stored under the name in the highest-indexed level, at or
below the current level, that is searched under the dialect version (not the 300-only
level with a version other than 300, not the 100-only level with a version other than
100) and holds the name; it returns no symbol exactly when no such level holds the name. -/
theorem find_returns_highest_searched_level (t : TSymbolTable) (name : TString) (v : Int)
    (h : t.table ≠ []) :
    ∃ r, t.find name v = .ok r ∧
      (∀ s, r.symbol = some s ↔
        ∃ i, i < t.table.length ∧ isEligibleLevel i v ∧ t.symbolAt i name = some s ∧
          ∀ j, i < j → j < t.table.length → isEligibleLevel j v →
            t.symbolAt j name = none) ∧
      (r.symbol = none ↔
        ∀ i, i < t.table.length → isEligibleLevel i v → t.symbolAt i name = none) := by
  have hpos : 0 < t.table.length := List.length_pos.2 h
  refine ⟨_, find_eq_resolveFrom t name v h, ?_, ?_⟩
  · intro s
    cases hr : t.resolveFrom name v (t.table.length - 1) with
    | none =>
      have hn := (resolveFrom_none_iff t name v _).1 hr
      simp only [false_iff, not_exists, not_and]
      constructor
      · intro hc; exact absurd hc (by simp)
      · rintro ⟨i, hi, hel, hs, _⟩
        have := hn i (by omega) hel
        rw [hs] at this
        exact absurd this (by simp)
    | some p =>
      obtain ⟨s', i'⟩ := p
      obtain ⟨hi', hel', hs', hmax'⟩ := (resolveFrom_some_iff t name v _ s' i').1 hr
      simp only [Option.some.injEq]
      constructor
      · rintro rfl
        exact ⟨i', by omega, hel', hs', fun j h1 h2 h3 => hmax' j h1 (by omega) h3⟩
      · rintro ⟨i, hi, hel, hs, hmax⟩
        have h2 := (resolveFrom_some_iff t name v (t.table.length - 1) s i).2
          ⟨by omega, hel, hs, fun j h1 h2 h3 => hmax j h1 (by omega) h3⟩
        rw [hr] at h2
        simp only [Option.some.injEq, Prod.mk.injEq] at h2
        exact h2.1
  · cases hr : t.resolveFrom name v (t.table.length - 1) with
    | none =>
      have hn := (resolveFrom_none_iff t name v _).1 hr
      simp only [true_iff]
      exact fun i hi hel => hn i (by omega) hel
    | some p =>
      obtain ⟨s', i'⟩ := p
      obtain ⟨hi', hel', hs', _⟩ := (resolveFrom_some_iff t name v _ s' i').1 hr
      simp only [false_iff, not_forall]
      constructor
      · intro hc; exact absurd hc (by simp)
      · intro hn
        have := hn i' (by omega) hel'
        rw [hs'] at this
        exact absurd this (by simp)

/-- C1, at the table `exTableShadow`, the name `foo` and the version 100. -/
theorem find_returns_highest_searched_level_witness :
    exTableShadow.table ≠ [] ∧
    ∃ r, exTableShadow.find "foo" 100 = .ok r ∧
      (∀ s, r.symbol = some s ↔
        ∃ i, i < exTableShadow.table.length ∧ isEligibleLevel i 100 ∧
          exTableShadow.symbolAt i "foo" = some s ∧
          ∀ j, i < j → j < exTableShadow.table.length → isEligibleLevel j 100 →
            exTableShadow.symbolAt j "foo" = none) ∧
      (r.symbol = none ↔
        ∀ i, i < exTableShadow.table.length → isEligibleLevel i 100 →
          exTableShadow.symbolAt i "foo" = none) :=
  ⟨by decide, find_returns_highest_searched_level exTableShadow "foo" 100 (by decide)⟩

/-- C3. Version gating. On a table that holds all the built-in levels, a name present only
in the 300-only built-in level is returned by `find` and by `findBuiltIn` under version
300 and is not found under version 100; a name present only in the 100-only built-in
level is returned under version 100 and is not found under version 300. -/
theorem version_gating (t : TSymbolTable) (name : TString) (s : TSymbol)
    (hb : LAST_BUILTIN_LEVEL ≤ t.currentLevel) :
    ((t.symbolAt ESSL3_BUILTINS.toNat name = some s ∧
        ∀ i, i ≠ ESSL3_BUILTINS.toNat → t.symbolAt i name = none) →
      (∃ r, t.find name 300 = .ok r ∧ r.symbol = some s) ∧
      t.findBuiltIn name 300 = .ok (some s) ∧
      (∃ r, t.find name 100 = .ok r ∧ r.symbol = none) ∧
      t.findBuiltIn name 100 = .ok none) ∧
    ((t.symbolAt ESSL1_BUILTINS.toNat name = some s ∧
        ∀ i, i ≠ ESSL1_BUILTINS.toNat → t.symbolAt i name = none) →
      (∃ r, t.find name 100 = .ok r ∧ r.symbol = some s) ∧
      t.findBuiltIn name 100 = .ok (some s) ∧
      (∃ r, t.find name 300 = .ok r ∧ r.symbol = none) ∧
      t.findBuiltIn name 300 = .ok none) := by
  have hlen := three_le_length_of_last_le_current t hb
  have hne : t.table ≠ [] := by
    intro h; rw [h] at hlen; simp at hlen
  have e3 : ESSL3_BUILTINS.toNat = 2 := rfl
  have e1 : ESSL1_BUILTINS.toNat = 1 := rfl
  rw [e3, e1]
  constructor
  · rintro ⟨hs, ho⟩
    have hA := resolveFrom_of_only_level t name 300 2 (t.table.length - 1) s (by omega) hs ho
    have hB := resolveFrom_of_only_level t name 100 2 (t.table.length - 1) s (by omega) hs ho
    have hC := resolveFrom_of_only_level t name 300 2 2 s (by omega) hs ho
    have hD := resolveFrom_of_only_level t name 100 2 2 s (by omega) hs ho
    have y : isEligibleLevel 2 300 := (isEligibleLevel_two 300).2 rfl
    have n : ¬ isEligibleLevel 2 100 := fun h => by
      have := (isEligibleLevel_two 100).1 h
      omega
    refine ⟨?_, ?_, ?_, ?_⟩
    · obtain ⟨r, hr, hsym⟩ := find_symbol_eq t name 300 hne
      exact ⟨r, hr, by rw [hsym, hA.1 y]; rfl⟩
    · rw [findBuiltIn_eq_resolveFrom t name 300 hlen, hC.1 y]; rfl
    · obtain ⟨r, hr, hsym⟩ := find_symbol_eq t name 100 hne
      exact ⟨r, hr, by rw [hsym, hB.2 n]; rfl⟩
    · rw [findBuiltIn_eq_resolveFrom t name 100 hlen, hD.2 n]; rfl
  · rintro ⟨hs, ho⟩
    have hA := resolveFrom_of_only_level t name 100 1 (t.table.length - 1) s (by omega) hs ho
    have hB := resolveFrom_of_only_level t name 300 1 (t.table.length - 1) s (by omega) hs ho
    have hC := resolveFrom_of_only_level t name 100 1 2 s (by omega) hs ho
    have hD := resolveFrom_of_only_level t name 300 1 2 s (by omega) hs ho
    have y : isEligibleLevel 1 100 := (isEligibleLevel_one 100).2 rfl
    have n : ¬ isEligibleLevel 1 300 := fun h => by
      have := (isEligibleLevel_one 300).1 h
      omega
    refine ⟨?_, ?_, ?_, ?_⟩
    · obtain ⟨r, hr, hsym⟩ := find_symbol_eq t name 100 hne
      exact ⟨r, hr, by rw [hsym, hA.1 y]; rfl⟩
    · rw [findBuiltIn_eq_resolveFrom t name 100 hlen, hC.1 y]; rfl
    · obtain ⟨r, hr, hsym⟩ := find_symbol_eq t name 300 hne
      exact ⟨r, hr, by rw [hsym, hB.2 n]; rfl⟩
    · rw [findBuiltIn_eq_resolveFrom t name 300 hlen, hD.2 n]; rfl

/-- C3, at the tables `exTable300` and `exTable100` with the name `foo`. -/
theorem version_gating_witness :
    (LAST_BUILTIN_LEVEL ≤ exTable300.currentLevel ∧
      (exTable300.symbolAt ESSL3_BUILTINS.toNat "foo" = some exBuiltInFoo ∧
        ∀ i, i ≠ ESSL3_BUILTINS.toNat → exTable300.symbolAt i "foo" = none) ∧
      (∃ r, exTable300.find "foo" 300 = .ok r ∧ r.symbol = some exBuiltInFoo) ∧
      exTable300.findBuiltIn "foo" 300 = .ok (some exBuiltInFoo) ∧
      (∃ r, exTable300.find "foo" 100 = .ok r ∧ r.symbol = none) ∧
      exTable300.findBuiltIn "foo" 100 = .ok none) ∧
    (LAST_BUILTIN_LEVEL ≤ exTable100.currentLevel ∧
      (exTable100.symbolAt ESSL1_BUILTINS.toNat "foo" = some exBuiltInFoo ∧
        ∀ i, i ≠ ESSL1_BUILTINS.toNat → exTable100.symbolAt i "foo" = none) ∧
      (∃ r, exTable100.find "foo" 100 = .ok r ∧ r.symbol = some exBuiltInFoo) ∧
      exTable100.findBuiltIn "foo" 100 = .ok (some exBuiltInFoo) ∧
      (∃ r, exTable100.find "foo" 300 = .ok r ∧ r.symbol = none) ∧
      exTable100.findBuiltIn "foo" 300 = .ok none) :=
  ⟨⟨by decide, ⟨by decide, exTable300_only⟩,
      (version_gating exTable300 "foo" exBuiltInFoo (by decide)).1
        ⟨by decide, exTable300_only⟩⟩,
   ⟨by decide, ⟨by decide, exTable100_only⟩,
      (version_gating exTable100 "foo" exBuiltInFoo (by decide)).2
        ⟨by decide, exTable100_only⟩⟩⟩

/-- C4, as stated, fails. In `exTableShadow` the name `foo` is declared in the current
(user) level and as a built-in of the 300-only level; under version 100 `findBuiltIn`
skips that level and returns no symbol, not the built-in. -/
theorem findBuiltIn_misses_gated_builtin :
    LAST_BUILTIN_LEVEL < exTableShadow.currentLevel ∧
    exTableShadow.symbolAt exTableShadow.currentLevel.toNat "foo" = some exUserFoo ∧
    exTableShadow.symbolAt ESSL3_BUILTINS.toNat "foo" = some exBuiltInFoo ∧
    exTableShadow.find "foo" 100 =
      .ok { symbol := some exUserFoo, builtIn := false, sameScope := true } ∧
    exTableShadow.findBuiltIn "foo" 100 = .ok none ∧
    exTableShadow.findBuiltIn "foo" 100 ≠ .ok (some exBuiltInFoo) := by
  decide

/-- C4, amended. Scope shadowing. When the current level is a user level and holds a user
symbol under the name, `find` returns that user symbol with `sameScope` true (and
`builtIn` false), whatever the version. `findBuiltIn` returns the symbol that the highest
built-in level searched under the version and holding the name stores, whatever the user
levels declare; it returns no symbol when no searched built-in level holds the name. -/
theorem scope_shadowing (t : TSymbolTable) (name : TString) (v : Int) (u : TSymbol)
    (hcur : LAST_BUILTIN_LEVEL < t.currentLevel)
    (hu : t.symbolAt t.currentLevel.toNat name = some u) :
    t.find name v = .ok { symbol := some u, builtIn := false, sameScope := true } ∧
    (∀ (k : Nat) (b : TSymbol), (k : Int) ≤ LAST_BUILTIN_LEVEL → isEligibleLevel k v →
      t.symbolAt k name = some b →
      (∀ j : Nat, k < j → (j : Int) ≤ LAST_BUILTIN_LEVEL → isEligibleLevel j v →
        t.symbolAt j name = none) →
      t.findBuiltIn name v = .ok (some b)) ∧
    ((∀ k : Nat, (k : Int) ≤ LAST_BUILTIN_LEVEL → isEligibleLevel k v →
        t.symbolAt k name = none) →
      t.findBuiltIn name v = .ok none) := by
  have hlen : 4 ≤ t.table.length := by
    simp only [LAST_BUILTIN_LEVEL, ESSL3_BUILTINS, TSymbolTable.currentLevel] at hcur
    omega
  have hne : t.table ≠ [] := by
    intro h; rw [h] at hlen; simp at hlen
  have hc : t.currentLevel.toNat = t.table.length - 1 := by
    simp only [TSymbolTable.currentLevel]; omega
  have hci : ((t.table.length - 1 : Nat) : Int) = t.currentLevel := by
    simp only [TSymbolTable.currentLevel]; omega
  rw [hc] at hu
  refine ⟨?_, ?_, ?_⟩
  · have hr : t.resolveFrom name v (t.table.length - 1) = some (u, t.table.length - 1) :=
      (resolveFrom_some_iff t name v _ u _).2
        ⟨le_refl _, isEligibleLevel_of_user _ v (by omega), hu, fun j h1 h2 => by omega⟩
    rw [find_eq_resolveFrom t name v hne, hr]
    simp only [hci, decide_True]
    have : ¬ (t.currentLevel ≤ LAST_BUILTIN_LEVEL) := by omega
    simp [this]
  · intro k b hk hel hs hmax
    have hk2 : k ≤ 2 := by
      simp only [LAST_BUILTIN_LEVEL, ESSL3_BUILTINS] at hk; omega
    have hr : t.resolveFrom name v 2 = some (b, k) :=
      (resolveFrom_some_iff t name v 2 b k).2
        ⟨hk2, hel, hs, fun j h1 h2 h3 => hmax j h1 (by
          simp only [LAST_BUILTIN_LEVEL, ESSL3_BUILTINS]; omega) h3⟩
    rw [findBuiltIn_eq_resolveFrom t name v (by omega), hr]
    rfl
  · intro hnone
    have hr : t.resolveFrom name v 2 = none :=
      (resolveFrom_none_iff t name v 2).2 (fun i hi hel => hnone i (by
        simp only [LAST_BUILTIN_LEVEL, ESSL3_BUILTINS]; omega) hel)
    rw [findBuiltIn_eq_resolveFrom t name v (by omega), hr]
    rfl

/-- C4 amended, at the table `exTableShadow`, the name `foo` and the version 300. -/
theorem scope_shadowing_witness :
    LAST_BUILTIN_LEVEL < exTableShadow.currentLevel ∧
    exTableShadow.symbolAt exTableShadow.currentLevel.toNat "foo" = some exUserFoo ∧
    exTableShadow.find "foo" 300 =
      .ok { symbol := some exUserFoo, builtIn := false, sameScope := true } ∧
    (∀ (k : Nat) (b : TSymbol), (k : Int) ≤ LAST_BUILTIN_LEVEL → isEligibleLevel k 300 →
      exTableShadow.symbolAt k "foo" = some b →
      (∀ j : Nat, k < j → (j : Int) ≤ LAST_BUILTIN_LEVEL → isEligibleLevel j 300 →
        exTableShadow.symbolAt j "foo" = none) →
      exTableShadow.findBuiltIn "foo" 300 = .ok (some b)) ∧
    ((∀ k : Nat, (k : Int) ≤ LAST_BUILTIN_LEVEL → isEligibleLevel k 300 →
        exTableShadow.symbolAt k "foo" = none) →
      exTableShadow.findBuiltIn "foo" 300 = .ok none) :=
  ⟨by decide, by decide, scope_shadowing exTableShadow "foo" 300 exUserFoo (by decide) (by decide)⟩

/-- C5. On a table that holds all the built-in levels, `findBuiltIn` returns exactly the
symbol that `find` returns on the same table with every user level removed, so that the
current level is the last built-in level; hence tables that agree on the built-in levels
give the same `findBuiltIn` result, whatever their user levels hold. -/
theorem findBuiltIn_eq_find_without_user_levels (t : TSymbolTable) (name : TString)
    (v : Int) (hb : LAST_BUILTIN_LEVEL ≤ t.currentLevel) :
    (∃ r, TSymbolTable.find { table := t.table.take (LAST_BUILTIN_LEVEL.toNat + 1) } name v
          = .ok r ∧
        t.findBuiltIn name v = .ok r.symbol) ∧
    (∀ t' : TSymbolTable,
      t'.table.take (LAST_BUILTIN_LEVEL.toNat + 1) =
        t.table.take (LAST_BUILTIN_LEVEL.toNat + 1) →
      t'.findBuiltIn name v = t.findBuiltIn name v) := by
  have hlen := three_le_length_of_last_le_current t hb
  have e : LAST_BUILTIN_LEVEL.toNat + 1 = 3 := rfl
  rw [e]
  have hcut : (t.table.take 3).length = 3 := by
    rw [List.length_take]; omega
  have key : ∀ u : TSymbolTable, 3 ≤ u.table.length →
      u.findBuiltIn name v =
        .ok ((TSymbolTable.resolveFrom { table := u.table.take 3 } name v 2).map Prod.fst) := by
    intro u hu
    rw [findBuiltIn_eq_resolveFrom u name v hu, resolveFrom_take u name v 3 2 (by omega)]
  constructor
  · have hne : (TSymbolTable.mk (t.table.take 3)).table ≠ [] := by
      intro h
      have := congrArg List.length h
      simp only [List.length_nil] at this
      omega
    obtain ⟨r, hr, hsym⟩ := find_symbol_eq (TSymbolTable.mk (t.table.take 3)) name v hne
    refine ⟨r, hr, ?_⟩
    rw [key t hlen, hsym]
    simp only [hcut]
  · intro t' ht'
    have hlen' : 3 ≤ t'.table.length := by
      have := congrArg List.length ht'
      rw [hcut, List.length_take] at this
      omega
    rw [key t hlen, key t' hlen', ht']

/-- C5, at the table `exTableShadow`, the name `foo` and the version 300. -/
theorem findBuiltIn_eq_find_without_user_levels_witness :
    LAST_BUILTIN_LEVEL ≤ exTableShadow.currentLevel ∧
    (∃ r, TSymbolTable.find
            { table := exTableShadow.table.take (LAST_BUILTIN_LEVEL.toNat + 1) } "foo" 300
          = .ok r ∧
        exTableShadow.findBuiltIn "foo" 300 = .ok r.symbol) ∧
    (∀ t' : TSymbolTable,
      t'.table.take (LAST_BUILTIN_LEVEL.toNat + 1) =
        exTableShadow.table.take (LAST_BUILTIN_LEVEL.toNat + 1) →
      t'.findBuiltIn "foo" 300 = exTableShadow.findBuiltIn "foo" 300) :=
  ⟨by decide, findBuiltIn_eq_find_without_user_levels exTableShadow "foo" 300 (by decide)⟩

/-- C6. On a table with at least one level, when `find` returns a symbol, that symbol was
found in the highest searched level holding the name, and for that resolving level the
`builtIn` output is true iff the level is at or below the last built-in level, and the
`sameScope` output is true iff the level is the current level of the table. -/
theorem find_flags_describe_resolving_level (t : TSymbolTable) (name : TString) (v : Int)
    (h : t.table ≠ []) :
    ∃ r, t.find name v = .ok r ∧
      ∀ s, r.symbol = some s →
        ∃ lvl : Nat, lvl < t.table.length ∧ isEligibleLevel lvl v ∧
          t.symbolAt lvl name = some s ∧
          (∀ j, lvl < j → j < t.table.length → isEligibleLevel j v →
            t.symbolAt j name = none) ∧
          (r.builtIn = true ↔ (lvl : Int) ≤ LAST_BUILTIN_LEVEL) ∧
          (r.sameScope = true ↔ (lvl : Int) = t.currentLevel) := by
  have hpos : 0 < t.table.length := List.length_pos.2 h
  refine ⟨_, find_eq_resolveFrom t name v h, ?_⟩
  intro s
  cases hr : t.resolveFrom name v (t.table.length - 1) with
  | none => intro hc; exact absurd hc (by simp)
  | some p =>
    obtain ⟨s', i'⟩ := p
    obtain ⟨hi', hel', hs', hmax'⟩ := (resolveFrom_some_iff t name v _ s' i').1 hr
    simp only [Option.some.injEq, decide_eq_true_eq]
    rintro rfl
    exact ⟨i', by omega, hel', hs', fun j h1 h2 h3 => hmax' j h1 (by omega) h3,
      Iff.rfl, Iff.rfl⟩

/-- C6, at the table `exTableShadow`, the name `foo` and the version 100. -/
theorem find_flags_describe_resolving_level_witness :
    exTableShadow.table ≠ [] ∧
    ∃ r, exTableShadow.find "foo" 100 = .ok r ∧
      ∀ s, r.symbol = some s →
        ∃ lvl : Nat, lvl < exTableShadow.table.length ∧ isEligibleLevel lvl 100 ∧
          exTableShadow.symbolAt lvl "foo" = some s ∧
          (∀ j, lvl < j → j < exTableShadow.table.length → isEligibleLevel j 100 →
            exTableShadow.symbolAt j "foo" = none) ∧
          (r.builtIn = true ↔ (lvl : Int) ≤ LAST_BUILTIN_LEVEL) ∧
          (r.sameScope = true ↔ (lvl : Int) = exTableShadow.currentLevel) :=
  ⟨by decide, find_flags_describe_resolving_level exTableShadow "foo" 100 (by decide)⟩

/-! ## Theorems: type descriptors -/

theorem TField.typeObjectSize_eq (w : Nat) (f : TField) :
    f.typeObjectSize w = f.type.getObjectSize w := by
  cases f; rfl

theorem TType.getObjectSize_lt (w : Nat) (t : TType) : t.getObjectSize w < 2 ^ w := by
  have hpos : 0 < 2 ^ w := Nat.pos_pow_of_pos w (by decide)
  cases t with
  | mk ty pr q inv lq ps ss arr n mx ib st dn =>
    cases ty <;> simp only [TType.getObjectSize] <;> exact Nat.mod_lt _ hpos

theorem sizeT_sub_eq (w size : Nat) (hw : INT_MAX < 2 ^ w) (hs : size ≤ INT_MAX) :
    (((INT_MAX : Int) - (size : Int)) % (2 ^ w : Int)).toNat = INT_MAX - size := by
  have h2 : ((2 : Int) ^ w) = ((2 ^ w : Nat) : Int) := by push_cast; rfl
  rw [h2, Int.emod_eq_of_lt (by omega) (by omega)]
  omega

/-- The loop of `calculateObjectSize` from a running total that does not exceed `INT_MAX`
ends with the smaller of the true sum and `INT_MAX`. -/
theorem calculateObjectSizeLoop_eq (w : Nat) (hw : INT_MAX < 2 ^ w) :
    ∀ (fs : TFieldList) (size : Nat), size ≤ INT_MAX →
      fs.calculateObjectSizeLoop w size = min (size + fs.sumObjectSizes w) INT_MAX
  | .nil, size, hs => by
    simp [TFieldList.calculateObjectSizeLoop, TFieldList.sumObjectSizes, TFieldList.toList, hs]
  | .cons f rest, size, hs => by
    have ih := calculateObjectSizeLoop_eq w hw rest
    have hsum : TFieldList.sumObjectSizes w (.cons f rest) =
        f.type.getObjectSize w + rest.sumObjectSizes w := by
      simp [TFieldList.sumObjectSizes, TFieldList.toList]
    rw [TFieldList.calculateObjectSizeLoop, hsum, sizeT_sub_eq w size hw hs,
      TField.typeObjectSize_eq]
    have hmax : INT_MAX % 2 ^ w = INT_MAX := Nat.mod_eq_of_lt hw
    by_cases hgt : f.type.getObjectSize w > INT_MAX - size
    · simp only [hgt, if_true, hmax]
      rw [ih INT_MAX (le_refl _)]
      omega
    · simp only [hgt, if_false]
      have hle : size + f.type.getObjectSize w ≤ INT_MAX := by omega
      rw [Nat.mod_eq_of_lt (by omega), ih _ hle]
      omega

/-- C10. With a `size_t` that can represent `INT_MAX`, `calculateObjectSize` returns the
smaller of the sum of the fields' object sizes and `INT_MAX`; in particular the result
never exceeds `INT_MAX`, and a running total that has reached `INT_MAX` stays there
whatever fields follow. -/
theorem calculateObjectSize_saturates (w : Nat) (hw : INT_MAX < 2 ^ w)
    (agg : TFieldListCollection) :
    agg.calculateObjectSize w = min (agg.mFields.sumObjectSizes w) INT_MAX ∧
    agg.calculateObjectSize w ≤ INT_MAX ∧
    (∀ fs : TFieldList, fs.calculateObjectSizeLoop w INT_MAX = INT_MAX) := by
  have h1 : agg.calculateObjectSize w = min (agg.mFields.sumObjectSizes w) INT_MAX := by
    cases agg with
    | mk p n fs =>
      simp only [TFieldListCollection.calculateObjectSize, TFieldListCollection.mFields]
      rw [calculateObjectSizeLoop_eq w hw fs 0 (Nat.zero_le _), Nat.zero_add]
  refine ⟨h1, ?_, ?_⟩
  · rw [h1]; exact Nat.min_le_right _ _
  · intro fs
    rw [calculateObjectSizeLoop_eq w hw fs INT_MAX (le_refl _)]
    omega

/-- C10, for a `size_t` of 64 bits and the aggregate `struct S { float a; int b[4]; }`. -/
theorem calculateObjectSize_saturates_witness :
    INT_MAX < 2 ^ 64 ∧
    exStructS.calculateObjectSize 64 = min (exStructS.mFields.sumObjectSizes 64) INT_MAX ∧
    exStructS.calculateObjectSize 64 ≤ INT_MAX ∧
    (∀ fs : TFieldList, fs.calculateObjectSizeLoop 64 INT_MAX = INT_MAX) :=
  ⟨by decide, calculateObjectSize_saturates 64 (by decide) exStructS⟩
/-! ### String facts -/

theorem push_eq_append_singleton (s : TString) (c : Char) :
    s.push c = s ++ String.singleton c := by
  apply String.ext; simp [String.singleton]

theorem toChar_size (p : Nat) : toChar ((('0'.toNat : Nat) : Int) + (p : Int)) = specSizeChar p := by
  have h0 : '0'.toNat = 48 := rfl
  have h1 : (((48 : Nat) : Int) + (p : Int)) % 256 = (((48 + p) % 256 : Nat) : Int) := by
    omega
  simp only [toChar, specSizeChar, h0, h1, Int.toNat_ofNat]

/-- The `switch` appends the kind tag of the specification for every kind but struct and
interface block. -/
theorem appendKindTag_of_not_aggregate (ty : TBasicType) (sn ibn : Option TString)
    (s : TString) (h1 : ty ≠ EbtStruct) (h2 : ty ≠ EbtInterfaceBlock) :
    appendKindTag ty sn ibn s = some (s ++ specKindTag ty) := by
  cases ty <;>
    first
    | exact absurd rfl h1
    | exact absurd rfl h2
    | exact push_eq_append_singleton s _ ▸ rfl
    | rfl
    | (simp only [appendKindTag, specKindTag, String.append_empty])

theorem appendShapeMark_eq (t : TType) (s : TString) :
    appendShapeMark t s = s ++ specShapeMark t := by
  simp only [appendShapeMark, specShapeMark, TType.isMatrix, TType.isVector]
  by_cases h1 : t.secondarySize > 1
  · simp only [h1, decide_True, if_true]
    exact push_eq_append_singleton s 'm'
  · by_cases h2 : t.primarySize > 1 ∧ t.secondarySize = 1
    · simp only [h1, h2, decide_True, decide_False, if_true, if_false, Bool.and_self,
        Bool.false_eq_true, and_self]
      exact push_eq_append_singleton s 'v'
    · have h3 : (decide (t.primarySize > 1) && decide (t.secondarySize = 1)) = false := by
        simpa using h2
      simp only [h1, h2, h3, decide_False, if_false, Bool.false_eq_true, String.append_empty]

theorem appendSizes_eq (t : TType) (s : TString) :
    appendSizes t s = s ++ specSizeChars t ++ specArraySuffix t := by
  have hb : ("[" : TString) = String.singleton '[' := rfl
  have hc : ("]" : TString) = String.singleton ']' := rfl
  simp only [appendSizes, specSizeChars, specArraySuffix, TType.isMatrix, TType.isArray,
    TType.getNominalSize, TType.getSecondarySize, toChar_size, hb, hc]
  by_cases h1 : t.secondarySize > 1 <;> cases h2 : t.array <;>
    simp only [h1, decide_True, decide_False, if_true, if_false, Bool.false_eq_true,
      push_eq_append_singleton, String.append_assoc, String.append_empty]

/-- The closed form of `TType::buildMangledName` for every descriptor. -/
theorem buildMangledName_eq (t : TType) (s : TString) :
    t.buildMangledName s =
      (specKindPart t).map
        (fun tag => s ++ specShapeMark t ++ tag ++ specSizeChars t ++ specArraySuffix t) := by
  cases t with
  | mk ty pr q inv lq ps ss arr n mx ib st dn =>
    simp only [TType.buildMangledName, appendShapeMark_eq, specKindPart, TType.type,
      TType.struct_, TType.interfaceBlock]
    by_cases h1 : ty = EbtStruct
    · subst h1
      cases hn : st.mangledName with
      | none => simp [appendKindTag]
      | some nm => simp [appendKindTag, appendSizes_eq]
    · by_cases h2 : ty = EbtInterfaceBlock
      · subst h2
        cases hn : ib.mangledName with
        | none => simp [appendKindTag]
        | some nm => simp [appendKindTag, appendSizes_eq]
      · rw [appendKindTag_of_not_aggregate ty _ _ _ h1 h2]
        have : (match ty with
            | EbtStruct => st.mangledName
            | EbtInterfaceBlock => ib.mangledName
            | k => some (specKindTag k)) = some (specKindTag ty) := by
          cases ty <;> first | rfl | exact absurd rfl h1 | exact absurd rfl h2
        simp only [this, Option.map_some', appendSizes_eq]

theorem TField.typeMangledName_eq (f : TField) : f.typeMangledName = f.type.getMangledName := by
  cases f; rfl

/-- The loop of `TFieldListCollection::buildMangledName` appends, for each field in order,
a dash and the mangled name of the type of the field. -/
theorem appendMangledNames_eq :
    ∀ (fs : TFieldList) (acc : TString),
      fs.appendMangledNames acc = fs.mangledNames.map (fun ms => acc ++ specFieldsPart ms)
  | .nil, acc => by
    simp [TFieldList.appendMangledNames, TFieldList.mangledNames, specFieldsPart]
  | .cons f rest, acc => by
    have ih := appendMangledNames_eq rest
    have hd : ("-" : TString) = String.singleton '-' := rfl
    rw [TFieldList.appendMangledNames, TFieldList.mangledNames, TField.typeMangledName_eq]
    cases hm : f.type.getMangledName with
    | none => rfl
    | some m =>
      simp only [ih]
      cases hr : rest.mangledNames with
      | none => rfl
      | some ms =>
        simp only [Option.map_some', specFieldsPart, push_eq_append_singleton, hd,
          String.append_assoc]

theorem aggregate_buildMangledName_eq (agg : TFieldListCollection) :
    agg.buildMangledName =
      agg.mFields.mangledNames.map
        (fun ms => agg.mangledNamePrefix ++ agg.mName ++ specFieldsPart ms) := by
  cases agg with
  | mk p n fs =>
    simp only [TFieldListCollection.buildMangledName, TFieldListCollection.mFields,
      TFieldListCollection.mangledNamePrefix, TFieldListCollection.mName,
      appendMangledNames_eq]

theorem specKindPart_of_non_aggregate (t : TType) (h1 : t.type ≠ EbtStruct)
    (h2 : t.type ≠ EbtInterfaceBlock) : specKindPart t = some (specKindTag t.type) := by
  cases t with
  | mk ty pr q inv lq ps ss arr n mx ib st dn =>
    simp only [TType.type] at h1 h2
    simp only [specKindPart, TType.type]

/-! ### Claims about the encoding -/

/-- C7. For every descriptor that is neither a struct nor an interface block,
`TType::buildMangledName` appends exactly: the shape mark (`m` for a matrix, else `v` for
a vector, else nothing), the kind tag (`f`, `i`, `u`, `b` or the fixed sampler string), the
character `'0' + primarySize`, for a matrix the character `'0' + secondarySize`, and for
an array the decimal array length, whatever its value, between `[` and `]`. The size
character is the decimal digit of the size when the size is at most 9. -/
theorem buildMangledName_of_non_aggregate (t : TType) (s : TString)
    (h1 : t.type ≠ EbtStruct) (h2 : t.type ≠ EbtInterfaceBlock) :
    t.buildMangledName s =
      some (s ++ specShapeMark t ++ specKindTag t.type ++ specSizeChars t ++
        specArraySuffix t) ∧
    (∀ n : Nat, n ≤ 9 → specSizeChar n = Nat.digitChar n) := by
  constructor
  · rw [buildMangledName_eq]
    rw [specKindPart_of_non_aggregate t h1 h2]
    rfl
  · intro n hn
    interval_cases n <;> rfl

/-- C7, at the array descriptor `mat3 [12]` of floats. -/
theorem buildMangledName_of_non_aggregate_witness :
    (exArray EbtFloat 3 3 12).type ≠ EbtStruct ∧
    (exArray EbtFloat 3 3 12).type ≠ EbtInterfaceBlock ∧
    (exArray EbtFloat 3 3 12).buildMangledName "" =
      some ("" ++ specShapeMark (exArray EbtFloat 3 3 12) ++
        specKindTag (exArray EbtFloat 3 3 12).type ++
        specSizeChars (exArray EbtFloat 3 3 12) ++
        specArraySuffix (exArray EbtFloat 3 3 12)) ∧
    (∀ n : Nat, n ≤ 9 → specSizeChar n = Nat.digitChar n) :=
  ⟨by decide, by decide,
    buildMangledName_of_non_aggregate (exArray EbtFloat 3 3 12) "" (by decide) (by decide)⟩

/-- C8, as stated, fails. The mangled name of `struct S { float a; int b[4]; }` starts
with the mark of the aggregate class, which `mangledNamePrefix()` supplies, and every
field name is preceded by a dash: it is `struct-S-f1-i1[4]`, not the name `S` followed by
the dash-joined field names. -/
theorem aggregate_mangledName_has_class_mark :
    exStructS.buildMangledName = some "struct-S-f1-i1[4]" ∧
    exStructS.mFields.mangledNames = some ["f1", "i1[4]"] ∧
    exStructS.buildMangledName ≠
      some (exStructS.mName ++ "-".intercalate ["f1", "i1[4]"]) ∧
    exStructS.buildMangledName ≠
      some (exStructS.mName ++ "-" ++ "-".intercalate ["f1", "i1[4]"]) := by
  decide

/-- C8, amended. The mangled name of an aggregate is the mark of its class
(`mangledNamePrefix()`), then its name, then for each field in declaration order a dash
and the mangled name of the type of the field, computed recursively; and
`TType::buildMangledName` of a struct or interface-block descriptor puts that aggregate
mangled name where the kind tag of another kind stands. -/
theorem aggregate_mangledName_layout (agg : TFieldListCollection) :
    agg.buildMangledName =
      agg.mFields.mangledNames.map
        (fun ms => agg.mangledNamePrefix ++ agg.mName ++ specFieldsPart ms) ∧
    (∀ (t : TType) (s : TString), t.type = EbtStruct → t.struct_ = .ptr agg →
      t.buildMangledName s =
        agg.buildMangledName.map
          (fun nm => s ++ specShapeMark t ++ nm ++ specSizeChars t ++ specArraySuffix t)) ∧
    (∀ (t : TType) (s : TString), t.type = EbtInterfaceBlock → t.interfaceBlock = .ptr agg →
      t.buildMangledName s =
        agg.buildMangledName.map
          (fun nm => s ++ specShapeMark t ++ nm ++ specSizeChars t ++ specArraySuffix t)) := by
  refine ⟨aggregate_buildMangledName_eq agg, ?_, ?_⟩
  · intro t s hk hp
    rw [buildMangledName_eq]
    simp only [specKindPart, hk, hp, TAggregatePtr.mangledName]
  · intro t s hk hp
    rw [buildMangledName_eq]
    simp only [specKindPart, hk, hp, TAggregatePtr.mangledName]

/-- Every sampler kind has a case of its own in the `switch`. -/
theorem appendKindTag_of_sampler (k : TBasicType) (hk : IsSampler k = true)
    (sn ibn : Option TString) (s : TString) :
    appendKindTag k sn ibn s = some (s ++ specKindTag k) := by
  apply appendKindTag_of_not_aggregate
  · rintro rfl; exact Bool.noConfusion hk
  · rintro rfl; exact Bool.noConfusion hk

theorem specKindTag_sampler_ne_empty (k : TBasicType) (hk : IsSampler k = true) :
    specKindTag k ≠ "" := by
  cases k <;> first | exact Bool.noConfusion hk | decide

theorem specKindTag_sampler_injective (a b : TBasicType) (ha : IsSampler a = true)
    (hb : IsSampler b = true) (h : specKindTag a = specKindTag b) : a = b := by
  cases a <;> first
    | exact Bool.noConfusion ha
    | (cases b <;> first
        | rfl
        | exact Bool.noConfusion hb
        | (revert h; decide))

/-- C9. Two different sampler kinds get different tags from the `switch` of
`TType::buildMangledName`, and no sampler kind gets the empty tag. -/
theorem sampler_tags_distinct (a b : TBasicType) (ha : IsSampler a = true)
    (hb : IsSampler b = true) (hab : a ≠ b) :
    ∃ ta tb : TString,
      (∀ (sn ibn : Option TString) (s : TString),
        appendKindTag a sn ibn s = some (s ++ ta)) ∧
      (∀ (sn ibn : Option TString) (s : TString),
        appendKindTag b sn ibn s = some (s ++ tb)) ∧
      ta ≠ tb ∧ ta ≠ "" ∧ tb ≠ "" :=
  ⟨specKindTag a, specKindTag b,
    fun sn ibn s => appendKindTag_of_sampler a ha sn ibn s,
    fun sn ibn s => appendKindTag_of_sampler b hb sn ibn s,
    fun h => hab (specKindTag_sampler_injective a b ha hb h),
    specKindTag_sampler_ne_empty a ha, specKindTag_sampler_ne_empty b hb⟩

/-- C9, at the kinds `sampler2D` and `sampler2DArray`. -/
theorem sampler_tags_distinct_witness :
    IsSampler EbtSampler2D = true ∧ IsSampler EbtSampler2DArray = true ∧
    EbtSampler2D ≠ EbtSampler2DArray ∧
    ∃ ta tb : TString,
      (∀ (sn ibn : Option TString) (s : TString),
        appendKindTag EbtSampler2D sn ibn s = some (s ++ ta)) ∧
      (∀ (sn ibn : Option TString) (s : TString),
        appendKindTag EbtSampler2DArray sn ibn s = some (s ++ tb)) ∧
      ta ≠ tb ∧ ta ≠ "" ∧ tb ≠ "" :=
  ⟨by decide, by decide, by decide,
    sampler_tags_distinct EbtSampler2D EbtSampler2DArray (by decide) (by decide) (by decide)⟩

/-! ### Decimal text -/

mutual
theorem mangle_of_structEq_type :
    ∀ (a b : TType), a.structEq b = true → ∀ s, a.buildMangledName s = b.buildMangledName s
  | .mk ty pr q inv lq ps ss arr n mx ib st dn,
    .mk ty' pr' q' inv' lq' ps' ss' arr' n' mx' ib' st' dn', h, s => by
    simp only [TType.structEq, Bool.and_eq_true, beq_iff_eq, Bool.or_eq_true,
      Bool.not_eq_true'] at h
    obtain ⟨⟨⟨⟨⟨⟨hty, hps⟩, hss⟩, harr⟩, hn⟩, hst⟩, hib⟩ := h
    subst hty hps hss harr
    have e1 : specShapeMark (.mk ty pr q inv lq ps ss arr n mx ib st dn) =
        specShapeMark (.mk ty pr' q' inv' lq' ps ss arr n' mx' ib' st' dn') := by
      simp only [specShapeMark, TType.primarySize, TType.secondarySize]
    have e2 : specSizeChars (.mk ty pr q inv lq ps ss arr n mx ib st dn) =
        specSizeChars (.mk ty pr' q' inv' lq' ps ss arr n' mx' ib' st' dn') := by
      simp only [specSizeChars, TType.primarySize, TType.secondarySize]
    have e3 : specArraySuffix (.mk ty pr q inv lq ps ss arr n mx ib st dn) =
        specArraySuffix (.mk ty pr' q' inv' lq' ps ss arr n' mx' ib' st' dn') := by
      simp only [specArraySuffix, TType.array, TType.arraySize]
      cases arr with
      | false => rfl
      | true =>
        rcases hn with hn | hn
        · exact Bool.noConfusion hn
        · rw [hn]
    have e4 : specKindPart (.mk ty pr q inv lq ps ss arr n mx ib st dn) =
        specKindPart (.mk ty pr' q' inv' lq' ps ss arr n' mx' ib' st' dn') := by
      simp only [specKindPart, TType.type, TType.struct_, TType.interfaceBlock]
      by_cases h1 : ty = EbtStruct
      · subst h1
        rcases hst with hst | hst
        · exact absurd hst (by decide)
        · exact mangle_of_structEq_ptr st st' hst
      · by_cases h2 : ty = EbtInterfaceBlock
        · subst h2
          rcases hib with hib | hib
          · exact absurd hib (by decide)
          · exact mangle_of_structEq_ptr ib ib' hib
        · cases ty <;> first | rfl | exact absurd rfl h1 | exact absurd rfl h2
    rw [buildMangledName_eq, buildMangledName_eq, e1, e2, e3, e4]
theorem mangle_of_structEq_ptr :
    ∀ (p q : TAggregatePtr), p.structEq q = true → p.mangledName = q.mangledName
  | .null, .null, _ => rfl
  | .null, .ptr _, h => by
    simp [TAggregatePtr.structEq, TAggregatePtr.isNull] at h
  | .ptr _, .null, h => by
    simp [TAggregatePtr.structEq] at h
  | .ptr s, .ptr s', h => by
    simp only [TAggregatePtr.structEq] at h
    simp only [TAggregatePtr.mangledName]
    exact mangle_of_structEq_aggregate s s' h
theorem mangle_of_structEq_aggregate :
    ∀ (x y : TFieldListCollection), x.structEq y = true →
      x.buildMangledName = y.buildMangledName
  | .mk p n fs, .mk p' n' fs', h => by
    simp only [TFieldListCollection.structEq, Bool.and_eq_true, beq_iff_eq] at h
    obtain ⟨⟨rfl, rfl⟩, hfs⟩ := h
    simp only [TFieldListCollection.buildMangledName]
    exact mangle_of_structEq_fields fs fs' hfs _
theorem mangle_of_structEq_fields :
    ∀ (fs gs : TFieldList), fs.structEq gs = true →
      ∀ acc, fs.appendMangledNames acc = gs.appendMangledNames acc
  | .nil, .nil, _, _ => rfl
  | .nil, .cons _ _, h, _ => by
    simp [TFieldList.structEq] at h
  | .cons _ _, .nil, h, _ => by
    simp [TFieldList.structEq] at h
  | .cons f r, .cons f' r', h, acc => by
    simp only [TFieldList.structEq, Bool.and_eq_true] at h
    rw [TFieldList.appendMangledNames, TFieldList.appendMangledNames,
      mangle_of_structEq_field f f' h.1]
    cases f'.typeMangledName with
    | none => rfl
    | some m => exact mangle_of_structEq_fields r r' h.2 _
theorem mangle_of_structEq_field :
    ∀ (f g : TField), f.structEq g = true → f.typeMangledName = g.typeMangledName
  | .mk t _, .mk t' _, h => by
    simp only [TField.structEq] at h
    simp only [TField.typeMangledName]
    exact mangle_of_structEq_type t t' h ""
end

/-! ### Claims about injectivity -/

/-- C8 amended, at `struct S { float a; int b[4]; }` and a descriptor that refers to it. -/
theorem aggregate_mangledName_layout_witness :
    (exStructType exStructS 1).type = EbtStruct ∧
    (exStructType exStructS 1).struct_ = .ptr exStructS ∧
    exStructS.buildMangledName =
      exStructS.mFields.mangledNames.map
        (fun ms => exStructS.mangledNamePrefix ++ exStructS.mName ++ specFieldsPart ms) ∧
    (exStructType exStructS 1).buildMangledName "" =
      exStructS.buildMangledName.map
        (fun nm => "" ++ specShapeMark (exStructType exStructS 1) ++ nm ++
          specSizeChars (exStructType exStructS 1) ++
          specArraySuffix (exStructType exStructS 1)) :=
  ⟨rfl, rfl, (aggregate_mangledName_layout exStructS).1,
    (aggregate_mangledName_layout exStructS).2.1 (exStructType exStructS 1) "" rfl rfl⟩

/-! ## Theorems: lookup under other versions, and safety of the subscripts -/

theorem findLoopTraced_fst (t : TSymbolTable) (name : TString) (v : Int) :
    ∀ (fuel : Nat) (level : Int),
      (t.findLoopTraced name v fuel level).1 = t.findLoop name v fuel level
  | 0, _ => rfl
  | fuel + 1, level => by
    rw [TSymbolTable.findLoopTraced, TSymbolTable.findLoop]
    cases skipVersionSpecificLevels v (level.toNat + 1) level with
    | error e => rfl
    | ok lv =>
      simp only
      cases t.levelAt lv with
      | error e => rfl
      | ok l =>
        simp only
        cases l.find name with
        | some s => rfl
        | none =>
          simp only
          by_cases h : lv - 1 ≥ 0
          · simp only [h, if_true]
            exact findLoopTraced_fst t name v fuel (lv - 1)
          · simp only [h, if_false]

theorem findBuiltInLoopTraced_fst (t : TSymbolTable) (name : TString) (v : Int) :
    ∀ (fuel : Nat) (level : Int),
      (t.findBuiltInLoopTraced name v fuel level).1 = t.findBuiltInLoop name v fuel level
  | 0, _ => rfl
  | fuel + 1, level => by
    rw [TSymbolTable.findBuiltInLoopTraced, TSymbolTable.findBuiltInLoop]
    by_cases h : level ≥ 0
    · simp only [h, if_true]
      cases skipVersionSpecificLevels v (level.toNat + 1) level with
      | error e => rfl
      | ok lv =>
        simp only
        cases t.levelAt lv with
        | error e => rfl
        | ok l =>
          simp only
          cases l.find name with
          | some s => rfl
          | none =>
            simp only
            exact findBuiltInLoopTraced_fst t name v fuel (lv - 1)
    · simp only [h, if_false]

theorem findLoopTraced_of_skipped (t : TSymbolTable) (name : TString) (v : Int)
    (fuel n : Nat) (h : isSkippedLevel ((n : Int) + 1) v = true) :
    t.findLoopTraced name v (fuel + 1) ((n : Int) + 1) =
      t.findLoopTraced name v (fuel + 1) (n : Int) := by
  rw [TSymbolTable.findLoopTraced, TSymbolTable.findLoopTraced, skip_of_skipped v n h]

theorem findBuiltInLoopTraced_of_skipped (t : TSymbolTable) (name : TString) (v : Int)
    (fuel n : Nat) (h : isSkippedLevel ((n : Int) + 1) v = true) :
    t.findBuiltInLoopTraced name v (fuel + 1) ((n : Int) + 1) =
      t.findBuiltInLoopTraced name v (fuel + 1) (n : Int) := by
  have h1 : (n : Int) + 1 ≥ 0 := by omega
  have h2 : (n : Int) ≥ 0 := by omega
  rw [TSymbolTable.findBuiltInLoopTraced, TSymbolTable.findBuiltInLoopTraced,
    skip_of_skipped v n h]
  simp only [h1, h2, if_true]

/-- Every subscript of the loop of `find`, started at an existing level `n` with enough
fuel, lies between `0` and `n`. -/
theorem findLoopTraced_accesses (t : TSymbolTable) (name : TString) (v : Int) :
    ∀ (n fuel : Nat), n < t.table.length → n + 1 ≤ fuel →
      ∀ i ∈ (t.findLoopTraced name v fuel (n : Int)).2, 0 ≤ i ∧ i ≤ (n : Int) := by
  intro n
  induction n with
  | zero =>
    intro fuel hlen hfuel i hi
    obtain ⟨f, rfl⟩ : ∃ f, fuel = f + 1 := ⟨fuel - 1, by omega⟩
    obtain ⟨l, hl, hg⟩ := levelAt_of_lt t 0 hlen
    have hs := skip_of_not_skipped v 0 0 (isSkippedLevel_zero v)
    simp only [Nat.cast_zero] at hl hi ⊢
    rw [TSymbolTable.findLoopTraced] at hi
    simp only [Int.toNat_zero, Nat.zero_add, hs, hl] at hi
    cases hf : l.find name with
    | some s =>
      simp only [hf, List.mem_singleton] at hi
      omega
    | none =>
      simp [hf] at hi
      omega
  | succ n ih =>
    intro fuel hlen hfuel i hi
    obtain ⟨f, rfl⟩ : ∃ f, fuel = f + 1 := ⟨fuel - 1, by omega⟩
    by_cases hsk : isSkippedLevel ((n : Int) + 1) v = true
    · have := findLoopTraced_of_skipped t name v f n hsk
      simp only [Nat.cast_succ] at this hi ⊢
      rw [this] at hi
      have := ih (f + 1) (by omega) (by omega) i hi
      omega
    · have hsk' : isSkippedLevel ((n : Int) + 1) v = false := by simpa using hsk
      obtain ⟨l, hl, hg⟩ := levelAt_of_lt t (n + 1) hlen
      have hs := skip_of_not_skipped v (((n : Int) + 1).toNat) ((n : Int) + 1) hsk'
      simp only [Nat.cast_succ] at hl hi ⊢
      rw [TSymbolTable.findLoopTraced] at hi
      simp only [hs, hl] at hi
      cases hf : l.find name with
      | some s =>
        simp only [hf, List.mem_singleton] at hi
        omega
      | none =>
        have h0 : (n : Int) ≥ 0 := by omega
        have h1 : (n : Int) + 1 - 1 = (n : Int) := by omega
        simp only [hf, h1, h0, if_true, List.mem_cons] at hi
        rcases hi with hi | hi
        · omega
        · have := ih f (by omega) (by omega) i hi
          omega

/-- Every subscript of the loop of `findBuiltIn`, started at an existing level `n` with
enough fuel, lies between `0` and `n`. -/
theorem findBuiltInLoopTraced_accesses (t : TSymbolTable) (name : TString) (v : Int) :
    ∀ (n fuel : Nat), n < t.table.length → n + 2 ≤ fuel →
      ∀ i ∈ (t.findBuiltInLoopTraced name v fuel (n : Int)).2, 0 ≤ i ∧ i ≤ (n : Int) := by
  intro n
  induction n with
  | zero =>
    intro fuel hlen hfuel i hi
    obtain ⟨f, rfl⟩ : ∃ f, fuel = f + 2 := ⟨fuel - 2, by omega⟩
    obtain ⟨l, hl, hg⟩ := levelAt_of_lt t 0 hlen
    have hs := skip_of_not_skipped v 0 0 (isSkippedLevel_zero v)
    simp only [Nat.cast_zero] at hl hi ⊢
    rw [TSymbolTable.findBuiltInLoopTraced] at hi
    simp only [Int.toNat_zero, Nat.zero_add, hs, hl, ge_iff_le, le_refl, if_true] at hi
    cases hf : l.find name with
    | some s =>
      simp only [hf, List.mem_singleton] at hi
      omega
    | none =>
      rw [TSymbolTable.findBuiltInLoopTraced] at hi
      simp [hf] at hi
      omega
  | succ n ih =>
    intro fuel hlen hfuel i hi
    obtain ⟨f, rfl⟩ : ∃ f, fuel = f + 1 := ⟨fuel - 1, by omega⟩
    by_cases hsk : isSkippedLevel ((n : Int) + 1) v = true
    · have := findBuiltInLoopTraced_of_skipped t name v f n hsk
      simp only [Nat.cast_succ] at this hi ⊢
      rw [this] at hi
      have := ih (f + 1) (by omega) (by omega) i hi
      omega
    · have hsk' : isSkippedLevel ((n : Int) + 1) v = false := by simpa using hsk
      obtain ⟨l, hl, hg⟩ := levelAt_of_lt t (n + 1) hlen
      have hs := skip_of_not_skipped v (((n : Int) + 1).toNat) ((n : Int) + 1) hsk'
      have hge : (n : Int) + 1 ≥ 0 := by omega
      simp only [Nat.cast_succ] at hl hi ⊢
      rw [TSymbolTable.findBuiltInLoopTraced] at hi
      simp only [hs, hl, hge, if_true] at hi
      cases hf : l.find name with
      | some s =>
        simp only [hf, List.mem_singleton] at hi
        omega
      | none =>
        have h1 : (n : Int) + 1 - 1 = (n : Int) := by omega
        simp only [hf, h1, List.mem_cons] at hi
        rcases hi with hi | hi
        · omega
        · have := ih f (by omega) (by omega) i hi
          omega

/-- The version-skip loop, started at a level that is not negative, terminates at a level
that is not negative and not above the start. -/
theorem skip_stays_in_range (v : Int) (level : Int) (h : 0 ≤ level) :
    ∃ l, skipVersionSpecificLevels v (level.toNat + 1) level = .ok l ∧ 0 ≤ l ∧ l ≤ level ∧
      isSkippedLevel l v = false := by
  obtain ⟨n, rfl⟩ : ∃ n : Nat, level = (n : Int) := ⟨level.toNat, by omega⟩
  induction n with
  | zero =>
    exact ⟨0, skip_of_not_skipped v 0 0 (isSkippedLevel_zero v), le_refl _, le_refl _,
      isSkippedLevel_zero v⟩
  | succ n ih =>
    by_cases hsk : isSkippedLevel ((n : Int) + 1) v = true
    · obtain ⟨l, hl, h0, h1, h2⟩ := ih (by omega)
      refine ⟨l, ?_, h0, ?_, h2⟩
      · simp only [Nat.cast_succ]
        rw [skip_of_skipped v n hsk]
        exact hl
      · simp only [Nat.cast_succ]; omega
    · have hsk' : isSkippedLevel ((n : Int) + 1) v = false := by simpa using hsk
      refine ⟨(n : Int) + 1, ?_, by omega, ?_, hsk'⟩
      · simp only [Nat.cast_succ]
        exact skip_of_not_skipped v _ _ hsk'
      · simp only [Nat.cast_succ]; omega

/-- Two tables that hold the same symbols under the name in every searched level up to
`n` give the same downward scan from `n`. -/
theorem resolveFrom_congr (t t' : TSymbolTable) (name : TString) (v : Int) :
    ∀ n : Nat, (∀ i, i ≤ n → isEligibleLevel i v → t.symbolAt i name = t'.symbolAt i name) →
      t.resolveFrom name v n = t'.resolveFrom name v n := by
  intro n
  induction n with
  | zero =>
    intro h
    have h0 : isEligibleLevel 0 v := (isSkippedLevel_eq_false_iff 0 v).1 (isSkippedLevel_zero v)
    simp only [TSymbolTable.resolveFrom, h 0 (le_refl _) h0]
  | succ n ih =>
    intro h
    have ih' := ih (fun i hi hel => h i (by omega) hel)
    by_cases hsk : isSkippedLevel ((n : Int) + 1) v = true
    · simp only [TSymbolTable.resolveFrom, hsk, if_true, ih']
    · have hsk' : isSkippedLevel ((n : Int) + 1) v = false := by simpa using hsk
      have hel : isEligibleLevel (n + 1) v :=
        (isSkippedLevel_eq_false_iff (n + 1) v).1 (by simpa using hsk')
      simp only [TSymbolTable.resolveFrom, hsk', h (n + 1) (le_refl _) hel, ih']

theorem withoutVersionLevels_length (t : TSymbolTable) :
    t.withoutVersionLevels.table.length = t.table.length := by
  simp [TSymbolTable.withoutVersionLevels]

theorem withoutVersionLevels_symbolAt (t : TSymbolTable) (name : TString) (i : Nat)
    (h1 : i ≠ 1) (h2 : i ≠ 2) :
    t.withoutVersionLevels.symbolAt i name = t.symbolAt i name := by
  have e1 : ESSL1_BUILTINS.toNat = 1 := rfl
  have e3 : ESSL3_BUILTINS.toNat = 2 := rfl
  simp only [TSymbolTable.symbolAt, TSymbolTable.withoutVersionLevels, e1, e3]
  rw [List.getElem?_set_ne (Ne.symm h2), List.getElem?_set_ne (Ne.symm h1)]

theorem withoutVersionLevels_symbolAt_gated (t : TSymbolTable) (name : TString) (i : Nat)
    (h : i = 1 ∨ i = 2) : t.withoutVersionLevels.symbolAt i name = none := by
  have e1 : ESSL1_BUILTINS.toNat = 1 := rfl
  have e3 : ESSL3_BUILTINS.toNat = 2 := rfl
  simp only [TSymbolTable.symbolAt, TSymbolTable.withoutVersionLevels, e1, e3]
  rcases h with rfl | rfl
  · rw [List.getElem?_set_ne (by decide)]
    by_cases hl : 1 < t.table.length
    · rw [List.getElem?_set_eq_of_lt _ hl]; rfl
    · rw [List.getElem?_eq_none (by simp; omega)]; rfl
  · by_cases hl : 2 < t.table.length
    · rw [List.getElem?_set_eq_of_lt _ (by simpa using hl)]; rfl
    · rw [List.getElem?_eq_none (by simp; omega)]; rfl

theorem not_eligible_of_other_version (v : Int) (h1 : v ≠ 100) (h3 : v ≠ 300) (i : Nat)
    (hel : isEligibleLevel i v) : i ≠ 1 ∧ i ≠ 2 := by
  constructor
  · rintro rfl
    exact h1 ((isEligibleLevel_one v).1 hel)
  · rintro rfl
    exact h3 ((isEligibleLevel_two v).1 hel)

theorem resolveFrom_withoutVersionLevels (t : TSymbolTable) (name : TString) (v : Int)
    (h1 : v ≠ 100) (h3 : v ≠ 300) (n : Nat) :
    t.withoutVersionLevels.resolveFrom name v n = t.resolveFrom name v n :=
  resolveFrom_congr _ _ name v n (fun i _ hel =>
    withoutVersionLevels_symbolAt t name i (not_eligible_of_other_version v h1 h3 i hel).1
      (not_eligible_of_other_version v h1 h3 i hel).2)

theorem exTableGated_only (i : Nat) (h1 : i ≠ ESSL1_BUILTINS.toNat)
    (_h3 : i ≠ ESSL3_BUILTINS.toNat) : exTableGated.symbolAt i "bar" = none := by
  rcases i with _ | _ | _ | _ | i
  · rfl
  · exact absurd rfl h1
  · rfl
  · rfl
  · simp [TSymbolTable.symbolAt, exTableGated]

/-! ### Claims about other versions, misses and subscripts -/

/-- C18. When the dialect version is neither 100 nor 300, on a table that holds all the
built-in levels `find` and `findBuiltIn` return what they return on the table in which
the 100-only and the 300-only levels are empty; so a name that only the version-specific
levels hold is not found. -/
theorem other_versions_skip_both_version_levels (t : TSymbolTable) (name : TString)
    (v : Int) (h1 : v ≠ 100) (h3 : v ≠ 300) (hb : LAST_BUILTIN_LEVEL ≤ t.currentLevel) :
    (∃ r, t.find name v = .ok r ∧ t.withoutVersionLevels.find name v = .ok r) ∧
    (∃ r, t.findBuiltIn name v = .ok r ∧ t.withoutVersionLevels.findBuiltIn name v = .ok r) ∧
    ((∀ i, i ≠ ESSL1_BUILTINS.toNat → i ≠ ESSL3_BUILTINS.toNat →
        t.symbolAt i name = none) →
      (∃ r, t.find name v = .ok r ∧ r.symbol = none) ∧ t.findBuiltIn name v = .ok none) := by
  have hlen := three_le_length_of_last_le_current t hb
  have hne : t.table ≠ [] := by
    intro h; rw [h] at hlen; simp at hlen
  have hlen' := withoutVersionLevels_length t
  have hne' : t.withoutVersionLevels.table ≠ [] := by
    intro h
    have := congrArg List.length h
    rw [hlen'] at this
    simp only [List.length_nil] at this
    omega
  have hcur : t.withoutVersionLevels.currentLevel = t.currentLevel := by
    simp only [TSymbolTable.currentLevel, hlen']
  refine ⟨?_, ?_, ?_⟩
  · refine ⟨_, find_eq_resolveFrom t name v hne, ?_⟩
    rw [find_eq_resolveFrom _ name v hne', hlen', hcur,
      resolveFrom_withoutVersionLevels t name v h1 h3]
  · refine ⟨_, findBuiltIn_eq_resolveFrom t name v hlen, ?_⟩
    rw [findBuiltIn_eq_resolveFrom _ name v (by rw [hlen']; exact hlen),
      resolveFrom_withoutVersionLevels t name v h1 h3]
  · intro hom
    have e1 : ESSL1_BUILTINS.toNat = 1 := rfl
    have e3 : ESSL3_BUILTINS.toNat = 2 := rfl
    rw [e1, e3] at hom
    have hnone : ∀ n, t.resolveFrom name v n = none := fun n =>
      (resolveFrom_none_iff t name v n).2 (fun i _ hel =>
        hom i (not_eligible_of_other_version v h1 h3 i hel).1
          (not_eligible_of_other_version v h1 h3 i hel).2)
    constructor
    · obtain ⟨r, hr, hsym⟩ := find_symbol_eq t name v hne
      exact ⟨r, hr, by rw [hsym, hnone]; rfl⟩
    · rw [findBuiltIn_eq_resolveFrom t name v hlen, hnone]; rfl

/-- C18, at the table `exTableGated`, the name `bar` of its 100-only level and the
version 310. -/
theorem other_versions_skip_both_version_levels_witness :
    (310 : Int) ≠ 100 ∧ (310 : Int) ≠ 300 ∧ LAST_BUILTIN_LEVEL ≤ exTableGated.currentLevel ∧
    (∀ i, i ≠ ESSL1_BUILTINS.toNat → i ≠ ESSL3_BUILTINS.toNat →
      exTableGated.symbolAt i "bar" = none) ∧
    (∃ r, exTableGated.find "bar" 310 = .ok r ∧
      exTableGated.withoutVersionLevels.find "bar" 310 = .ok r) ∧
    (∃ r, exTableGated.findBuiltIn "bar" 310 = .ok r ∧
      exTableGated.withoutVersionLevels.findBuiltIn "bar" 310 = .ok r) ∧
    (∃ r, exTableGated.find "bar" 310 = .ok r ∧ r.symbol = none) ∧
    exTableGated.findBuiltIn "bar" 310 = .ok none :=
  have h := other_versions_skip_both_version_levels exTableGated "bar" 310 (by decide)
    (by decide) (by decide)
  ⟨by decide, by decide, by decide, exTableGated_only, h.1, h.2.1, h.2.2 exTableGated_only⟩

/-- C19. On a table with at least one level, when `find` returns no symbol the loop was
left with the level cursor at `-1`, so the `builtIn` output is true and the `sameScope`
output is false. -/
theorem find_not_found_flags (t : TSymbolTable) (name : TString) (v : Int)
    (h : t.table ≠ []) :
    ∃ r, t.find name v = .ok r ∧
      (r.symbol = none →
        t.findLoop name v (t.table.length + 1) t.currentLevel = .ok (none, -1) ∧
        r.builtIn = true ∧ r.sameScope = false) := by
  have hpos : 0 < t.table.length := List.length_pos.2 h
  have hcur : t.currentLevel = ((t.table.length - 1 : Nat) : Int) := by
    simp only [TSymbolTable.currentLevel]; omega
  have hloop := findLoop_eq_resolveFrom t name v (t.table.length - 1) (t.table.length + 1)
    (by omega) (by omega)
  refine ⟨_, find_eq_resolveFrom t name v h, ?_⟩
  cases hr : t.resolveFrom name v (t.table.length - 1) with
  | some p =>
    obtain ⟨s, i⟩ := p
    intro hc
    exact absurd hc (by simp)
  | none =>
    intro _
    refine ⟨?_, ?_, ?_⟩
    · rw [hcur, hloop, hr]
    · simp [LAST_BUILTIN_LEVEL, ESSL3_BUILTINS]
    · have : ¬ ((-1 : Int) = t.currentLevel) := by rw [hcur]; omega
      simp [this]

/-- C19, at the table `exTableGated`, the name `bar` and the version 300. -/
theorem find_not_found_flags_witness :
    exTableGated.table ≠ [] ∧
    ∃ r, exTableGated.find "bar" 300 = .ok r ∧
      (r.symbol = none →
        exTableGated.findLoop "bar" 300 (exTableGated.table.length + 1)
          exTableGated.currentLevel = .ok (none, -1) ∧
        r.builtIn = true ∧ r.sameScope = false) :=
  ⟨by decide, find_not_found_flags exTableGated "bar" 300 (by decide)⟩

/-- C20. On a table that holds all the built-in levels, `find` and `findBuiltIn`
terminate without fault, every index at which they subscript the level table lies
between 0 and their starting level (the current level for `find`, the last built-in
level for `findBuiltIn`), and the version-skip loop, entered at a level that is not
negative, never moves the cursor below level 0. The traced loops whose subscripts are
listed compute the results of the loops of `find` and `findBuiltIn`. -/
theorem lookup_subscripts_in_range (t : TSymbolTable) (name : TString) (v : Int)
    (hb : LAST_BUILTIN_LEVEL ≤ t.currentLevel) :
    (∃ r, t.find name v = .ok r) ∧
    (∃ r, t.findBuiltIn name v = .ok r) ∧
    (∀ i ∈ t.findAccesses name v, 0 ≤ i ∧ i ≤ t.currentLevel) ∧
    (∀ i ∈ t.findBuiltInAccesses name v, 0 ≤ i ∧ i ≤ LAST_BUILTIN_LEVEL) ∧
    (∀ level : Int, 0 ≤ level →
      ∃ l, skipVersionSpecificLevels v (level.toNat + 1) level = .ok l ∧
        0 ≤ l ∧ l ≤ level) ∧
    (t.findLoopTraced name v (t.table.length + 1) t.currentLevel).1 =
      t.findLoop name v (t.table.length + 1) t.currentLevel ∧
    (t.findBuiltInLoopTraced name v (LAST_BUILTIN_LEVEL.toNat + 2) LAST_BUILTIN_LEVEL).1 =
      t.findBuiltIn name v := by
  have hlen := three_le_length_of_last_le_current t hb
  have hne : t.table ≠ [] := by
    intro h; rw [h] at hlen; simp at hlen
  have hcur : t.currentLevel = ((t.table.length - 1 : Nat) : Int) := by
    simp only [TSymbolTable.currentLevel]; omega
  refine ⟨⟨_, find_eq_resolveFrom t name v hne⟩, ⟨_, findBuiltIn_eq_resolveFrom t name v hlen⟩,
    ?_, ?_, ?_, findLoopTraced_fst t name v _ _, findBuiltInLoopTraced_fst t name v _ _⟩
  · intro i hi
    simp only [TSymbolTable.findAccesses] at hi
    rw [hcur] at hi ⊢
    exact findLoopTraced_accesses t name v (t.table.length - 1) (t.table.length + 1)
      (by omega) (by omega) i hi
  · intro i hi
    have := findBuiltInLoopTraced_accesses t name v 2 4 (by omega) (by omega) i hi
    simpa [LAST_BUILTIN_LEVEL, ESSL3_BUILTINS] using this
  · intro level hl
    obtain ⟨l, h1, h2, h3, _⟩ := skip_stays_in_range v level hl
    exact ⟨l, h1, h2, h3⟩

/-- C20, at the table `exTableGated`, the name `bar` and the version 300. -/
theorem lookup_subscripts_in_range_witness :
    LAST_BUILTIN_LEVEL ≤ exTableGated.currentLevel ∧
    (∃ r, exTableGated.find "bar" 300 = .ok r) ∧
    (∃ r, exTableGated.findBuiltIn "bar" 300 = .ok r) ∧
    (∀ i ∈ exTableGated.findAccesses "bar" 300, 0 ≤ i ∧ i ≤ exTableGated.currentLevel) ∧
    (∀ i ∈ exTableGated.findBuiltInAccesses "bar" 300, 0 ≤ i ∧ i ≤ LAST_BUILTIN_LEVEL) ∧
    (∀ level : Int, 0 ≤ level →
      ∃ l, skipVersionSpecificLevels 300 (level.toNat + 1) level = .ok l ∧
        0 ≤ l ∧ l ≤ level) ∧
    (exTableGated.findLoopTraced "bar" 300 (exTableGated.table.length + 1)
        exTableGated.currentLevel).1 =
      exTableGated.findLoop "bar" 300 (exTableGated.table.length + 1)
        exTableGated.currentLevel ∧
    (exTableGated.findBuiltInLoopTraced "bar" 300 (LAST_BUILTIN_LEVEL.toNat + 2)
        LAST_BUILTIN_LEVEL).1 =
      exTableGated.findBuiltIn "bar" 300 :=
  ⟨by decide, lookup_subscripts_in_range exTableGated "bar" 300 (by decide)⟩

/-- The subscripts of the two lookups of `bar` under version 300 in `exTableGated`:
`find` reads the levels 3, 2 and 0, `findBuiltIn` the levels 2 and 0. -/
theorem exTableGated_accesses :
    exTableGated.findAccesses "bar" 300 = [3, 2, 0] ∧
    exTableGated.findBuiltInAccesses "bar" 300 = [2, 0] := by
  decide

/-! ## Theorems: object size, nesting depth, containment and construction -/

theorem getObjectSize_of_non_aggregate (w : Nat) (t : TType) (h1 : t.type ≠ EbtStruct)
    (h2 : t.type ≠ EbtInterfaceBlock) :
    t.getObjectSize w =
      (if t.array then specComponentCount t * (t.arraySize % (2 ^ w : Int)).toNat
       else specComponentCount t) % 2 ^ w := by
  cases t with
  | mk ty pr q inv lq ps ss arr n mx ib st dn =>
    simp only [TType.type] at h1 h2
    cases ty <;>
      first
      | exact absurd rfl h1
      | exact absurd rfl h2
      | simp only [TType.getObjectSize, specComponentCount, TType.array, TType.arraySize,
          TType.primarySize, TType.secondarySize]

theorem getObjectSize_of_plain (w : Nat) (t : TType) (h1 : t.type ≠ EbtStruct)
    (h2 : t.type ≠ EbtInterfaceBlock) (ha : t.array = false)
    (hc : specComponentCount t < 2 ^ w) : t.getObjectSize w = specComponentCount t := by
  rw [getObjectSize_of_non_aggregate w t h1 h2, ha]
  simp only [Bool.false_eq_true, if_false]
  exact Nat.mod_eq_of_lt hc

theorem getObjectSize_of_array (w : Nat) (hw : INT_MAX < 2 ^ w) (t : TType)
    (h1 : t.type ≠ EbtStruct) (h2 : t.type ≠ EbtInterfaceBlock) (ha : t.array = true)
    (hn0 : 0 ≤ t.arraySize) (hn1 : t.arraySize ≤ (INT_MAX : Int))
    (hc : specComponentCount t * t.arraySize.toNat < 2 ^ w) :
    t.getObjectSize w = specComponentCount t * t.arraySize.toNat := by
  rw [getObjectSize_of_non_aggregate w t h1 h2, ha]
  simp only [if_true]
  have h2w : ((2 : Int) ^ w) = ((2 ^ w : Nat) : Int) := by push_cast; rfl
  have hmod : t.arraySize % (2 ^ w : Int) = t.arraySize := by
    rw [h2w]
    exact Int.emod_eq_of_lt hn0 (by omega)
  rw [hmod]
  exact Nat.mod_eq_of_lt hc

theorem getObjectSize_of_struct (w : Nat) (hw : INT_MAX < 2 ^ w) (t : TType)
    (s : TFieldListCollection) (h1 : t.type = EbtStruct) (h2 : t.struct_ = .ptr s)
    (hs : s.mFields.sumObjectSizes w ≤ INT_MAX) :
    t.getObjectSize w = s.mFields.sumObjectSizes w := by
  cases t with
  | mk ty pr q inv lq ps ss arr n mx ib st dn =>
    simp only [TType.type, TType.struct_] at h1 h2
    subst h1 h2
    cases s with
    | mk p nm fs =>
      simp only [TFieldListCollection.mFields] at hs
      simp only [TType.getObjectSize, TAggregatePtr.objectSize,
        TFieldListCollection.calculateObjectSize, TFieldListCollection.mFields]
      rw [calculateObjectSizeLoop_eq w hw fs 0 (Nat.zero_le _), Nat.zero_add,
        Nat.min_eq_left hs]
      exact Nat.mod_eq_of_lt (by omega)

theorem getObjectSize_of_interfaceBlock (w : Nat) (hw : INT_MAX < 2 ^ w) (t : TType)
    (s : TFieldListCollection) (h1 : t.type = EbtInterfaceBlock)
    (h2 : t.interfaceBlock = .ptr s) (hs : s.mFields.sumObjectSizes w ≤ INT_MAX) :
    t.getObjectSize w = s.mFields.sumObjectSizes w := by
  cases t with
  | mk ty pr q inv lq ps ss arr n mx ib st dn =>
    simp only [TType.type, TType.interfaceBlock] at h1 h2
    subst h1 h2
    cases s with
    | mk p nm fs =>
      simp only [TFieldListCollection.mFields] at hs
      simp only [TType.getObjectSize, TAggregatePtr.objectSize,
        TFieldListCollection.calculateObjectSize, TFieldListCollection.mFields]
      rw [calculateObjectSizeLoop_eq w hw fs 0 (Nat.zero_le _), Nat.zero_add,
        Nat.min_eq_left hs]
      exact Nat.mod_eq_of_lt (by omega)

theorem objectSize_eq_sum (w : Nat) (hw : INT_MAX < 2 ^ w) (agg : TFieldListCollection)
    (hsum : agg.mFields.sumObjectSizes w ≤ INT_MAX) :
    agg.objectSize w = agg.mFields.sumObjectSizes w := by
  cases agg with
  | mk p n fs =>
    simp only [TFieldListCollection.mFields] at hsum
    simp only [TFieldListCollection.objectSize, TFieldListCollection.calculateObjectSize,
      TFieldListCollection.mFields]
    rw [calculateObjectSizeLoop_eq w hw fs 0 (Nat.zero_le _), Nat.zero_add,
      Nat.min_eq_left hsum]

theorem exStructS_sumObjectSizes (w : Nat) (hw : INT_MAX < 2 ^ w) :
    exStructS.mFields.sumObjectSizes w = 5 := by
  have hI : INT_MAX = 2147483647 := rfl
  have a : (exBasic EbtFloat 1 1).getObjectSize w = 1 :=
    getObjectSize_of_plain w _ (by decide) (by decide) rfl
      (by simp only [specComponentCount, exBasic, TType.secondarySize, TType.primarySize]
          simp only [gt_iff_lt, lt_self_iff_false, if_false]; omega)
  have b : (exArray EbtInt 1 1 4).getObjectSize w = 4 :=
    getObjectSize_of_array w hw _ (by decide) (by decide) rfl (by decide) (by decide)
      (by simp only [specComponentCount, exArray, TType.secondarySize, TType.primarySize,
            TType.arraySize]
          simp only [gt_iff_lt, lt_self_iff_false, if_false]
          have : (4 : Int).toNat = 4 := rfl
          omega)
  simp only [exStructS, TFieldListCollection.mFields, TFieldList.sumObjectSizes,
    TFieldList.toList, List.map_cons, List.map_nil, TField.type, a, b]
  rfl

/-! ### Claims about object size -/

/-- C11. With a `size_t` that can represent `INT_MAX`, the object size of an aggregate
whose field sizes sum to at most `INT_MAX` is the sum of the object sizes of its fields.
A scalar, vector or matrix field counts its component count, times the array length if it
is an array; a struct or interface-block field counts the sum of the aggregate it refers
to. The object size of `struct S { float a; int b[4]; }` is 5. -/
theorem objectSize_eq_sum_of_field_sizes (w : Nat) (hw : INT_MAX < 2 ^ w)
    (agg : TFieldListCollection) (hsum : agg.mFields.sumObjectSizes w ≤ INT_MAX) :
    agg.objectSize w = agg.mFields.sumObjectSizes w ∧
    agg.calculateObjectSize w = agg.mFields.sumObjectSizes w ∧
    (∀ t : TType, t.type ≠ EbtStruct → t.type ≠ EbtInterfaceBlock → t.array = false →
      specComponentCount t < 2 ^ w → t.getObjectSize w = specComponentCount t) ∧
    (∀ t : TType, t.type ≠ EbtStruct → t.type ≠ EbtInterfaceBlock → t.array = true →
      0 ≤ t.arraySize → t.arraySize ≤ (INT_MAX : Int) →
      specComponentCount t * t.arraySize.toNat < 2 ^ w →
      t.getObjectSize w = specComponentCount t * t.arraySize.toNat) ∧
    (∀ (t : TType) (s : TFieldListCollection), t.type = EbtStruct → t.struct_ = .ptr s →
      s.mFields.sumObjectSizes w ≤ INT_MAX →
      t.getObjectSize w = s.mFields.sumObjectSizes w) ∧
    (∀ (t : TType) (s : TFieldListCollection), t.type = EbtInterfaceBlock →
      t.interfaceBlock = .ptr s → s.mFields.sumObjectSizes w ≤ INT_MAX →
      t.getObjectSize w = s.mFields.sumObjectSizes w) ∧
    exStructS.objectSize w = 5 := by
  refine ⟨objectSize_eq_sum w hw agg hsum, objectSize_eq_sum w hw agg hsum,
    fun t h1 h2 ha hc => getObjectSize_of_plain w t h1 h2 ha hc,
    fun t h1 h2 ha hn0 hn1 hc => getObjectSize_of_array w hw t h1 h2 ha hn0 hn1 hc,
    fun t s h1 h2 hs => getObjectSize_of_struct w hw t s h1 h2 hs,
    fun t s h1 h2 hs => getObjectSize_of_interfaceBlock w hw t s h1 h2 hs, ?_⟩
  have h5 := exStructS_sumObjectSizes w hw
  rw [objectSize_eq_sum w hw exStructS (by rw [h5]; decide), h5]

/-- C11, for a `size_t` of 32 bits and the aggregate `struct S { float a; int b[4]; }`. -/
theorem objectSize_eq_sum_of_field_sizes_witness :
    INT_MAX < 2 ^ 32 ∧ exStructS.mFields.sumObjectSizes 32 ≤ INT_MAX ∧
    exStructS.objectSize 32 = exStructS.mFields.sumObjectSizes 32 ∧
    exStructS.objectSize 32 = 5 :=
  have h := objectSize_eq_sum_of_field_sizes 32 (by decide) exStructS (by decide)
  ⟨by decide, by decide, h.1, h.2.2.2.2.2.2⟩

/-! ### Claims about nesting depth -/

/-- The loop of `calculateDeepestNesting` ends with the greatest of the running maximum
and the depths of the field types. -/
theorem calculateDeepestNestingLoop_spec :
    ∀ (fs : TFieldList) (m0 : Int),
      m0 ≤ fs.calculateDeepestNestingLoop m0 ∧
      (∀ f ∈ fs.toList, f.type.getDeepestStructNesting ≤ fs.calculateDeepestNestingLoop m0) ∧
      (fs.calculateDeepestNestingLoop m0 = m0 ∨
        ∃ f ∈ fs.toList, f.type.getDeepestStructNesting = fs.calculateDeepestNestingLoop m0)
  | .nil, m0 => by
    simp [TFieldList.calculateDeepestNestingLoop, TFieldList.toList]
  | .cons f rest, m0 => by
    obtain ⟨h1, h2, h3⟩ :=
      calculateDeepestNestingLoop_spec rest (max m0 f.type.getDeepestStructNesting)
    simp only [TFieldList.calculateDeepestNestingLoop, TFieldList.toList, List.mem_cons,
      forall_eq_or_imp, exists_eq_or_imp]
    refine ⟨le_trans (le_max_left _ _) h1, ⟨le_trans (le_max_right _ _) h1, h2⟩, ?_⟩
    rcases h3 with h3 | ⟨g, hg, h3⟩
    · rcases max_choice m0 f.type.getDeepestStructNesting with hm | hm
      · left; rw [h3, hm]
      · right; left; rw [h3, hm]
    · right; right; exact ⟨g, hg, h3⟩

theorem fromPublicType_deepestStructNesting (p : TPublicType) :
    (TType.fromPublicType p).getDeepestStructNesting =
      match p.userDef with
      | none => 0
      | some u =>
        match u.getStruct with
        | .null => 0
        | .ptr s => TStructure.calculateDeepestNesting s := by
  cases hu : p.userDef with
  | none => simp only [TType.fromPublicType, hu]; rfl
  | some u =>
    simp only [TType.fromPublicType, hu, TType.computeDeepestStructNesting,
      TType.getDeepestStructNesting, TType.deepestStructNesting]
    cases u.getStruct <;> rfl

/-- C12. `TStructure::calculateDeepestNesting` is 1 plus the greatest of 0 and the nesting
depths of the field types, so it is 1 for an aggregate without fields; the nesting depth
of a descriptor constructed from a public type is that of the struct it refers to, and 0
when it refers to none. Hence a descriptor constructed without a struct has depth 0, a
struct whose field types all have depth 0 has depth 1, and a struct with a field of depth
1 and no deeper field has depth 2. -/
theorem deepest_nesting (s : TFieldListCollection) :
    (∃ m : Int, TStructure.calculateDeepestNesting s = 1 + m ∧ 0 ≤ m ∧
      (∀ f ∈ s.mFields.toList, f.type.getDeepestStructNesting ≤ m) ∧
      (m = 0 ∨ ∃ f ∈ s.mFields.toList, f.type.getDeepestStructNesting = m)) ∧
    (s.mFields = .nil → TStructure.calculateDeepestNesting s = 1) ∧
    (∀ p : TPublicType,
      (TType.fromPublicType p).getDeepestStructNesting =
        match p.userDef with
        | none => 0
        | some u =>
          match u.getStruct with
          | .null => 0
          | .ptr s' => TStructure.calculateDeepestNesting s') ∧
    (∀ p : TPublicType, p.userDef = none →
      (TType.fromPublicType p).getDeepestStructNesting = 0) ∧
    ((∀ f ∈ s.mFields.toList, f.type.getDeepestStructNesting = 0) →
      TStructure.calculateDeepestNesting s = 1) ∧
    ((∀ f ∈ s.mFields.toList, f.type.getDeepestStructNesting ≤ 1) →
      (∃ f ∈ s.mFields.toList, f.type.getDeepestStructNesting = 1) →
      TStructure.calculateDeepestNesting s = 2) := by
  obtain ⟨h1, h2, h3⟩ := calculateDeepestNestingLoop_spec s.mFields 0
  refine ⟨⟨_, rfl, h1, h2, h3⟩, ?_, fromPublicType_deepestStructNesting, ?_, ?_, ?_⟩
  · intro hnil
    simp only [TStructure.calculateDeepestNesting, hnil,
      TFieldList.calculateDeepestNestingLoop]
    rfl
  · intro p hp
    rw [fromPublicType_deepestStructNesting, hp]
  · intro hall
    have : s.mFields.calculateDeepestNestingLoop 0 = 0 := by
      rcases h3 with h3 | ⟨f, hf, h3⟩
      · exact h3
      · rw [← h3]; exact hall f hf
    simp only [TStructure.calculateDeepestNesting, this]
    rfl
  · intro hall hex
    obtain ⟨g, hg, hg1⟩ := hex
    have hle : s.mFields.calculateDeepestNestingLoop 0 ≤ 1 := by
      rcases h3 with h3 | ⟨f, hf, h3⟩
      · rw [h3]; decide
      · rw [← h3]; exact hall f hf
    have hge : 1 ≤ s.mFields.calculateDeepestNestingLoop 0 := by
      rw [← hg1]; exact h2 g hg
    have : s.mFields.calculateDeepestNestingLoop 0 = 1 := le_antisymm hle hge
    simp only [TStructure.calculateDeepestNesting, this]
    rfl

/-- C12, at `float`, at `struct Inner { float x; float y[3]; sampler2D t; }` and at
`struct Outer { Inner i; }`, all field types constructed from public types. -/
theorem deepest_nesting_witness :
    exPublicFloat.userDef = none ∧
    (TType.fromPublicType exPublicFloat).getDeepestStructNesting = 0 ∧
    (∀ f ∈ exInner.mFields.toList, f.type.getDeepestStructNesting = 0) ∧
    TStructure.calculateDeepestNesting exInner = 1 ∧
    (∀ f ∈ exOuter.mFields.toList, f.type.getDeepestStructNesting ≤ 1) ∧
    (∃ f ∈ exOuter.mFields.toList, f.type.getDeepestStructNesting = 1) ∧
    TStructure.calculateDeepestNesting exOuter = 2 :=
  ⟨rfl, (deepest_nesting exInner).2.2.2.1 exPublicFloat rfl,
    by decide, (deepest_nesting exInner).2.2.2.2.1 (by decide),
    by decide, by decide,
    (deepest_nesting exOuter).2.2.2.2.2 (by decide) (by decide)⟩

/-! ### Claims about containment -/

theorem containsArraysLoop_iff :
    ∀ fs : TFieldList, fs.containsArraysLoop = true ↔
      ∃ f ∈ fs.toList, f.isArrayOrContainsArrays = true
  | .nil => by simp [TFieldList.containsArraysLoop, TFieldList.toList]
  | .cons f rest => by
    have ih := containsArraysLoop_iff rest
    simp only [TFieldList.containsArraysLoop, TFieldList.toList, List.mem_cons,
      exists_eq_or_imp]
    cases hf : f.isArrayOrContainsArrays <;> simp [ih]

theorem isArrayOrContainsArrays_iff (f : TField) :
    f.isArrayOrContainsArrays = true ↔
      (f.type.isArray = true ∨
        ∃ s', f.type.getStruct = .ptr s' ∧ TStructure.containsArrays s' = true) := by
  cases f with
  | mk t nm =>
    cases t with
    | mk ty pr q inv lq ps ss arr n mx ib st dn =>
      cases st with
      | null =>
        simp [TField.isArrayOrContainsArrays, TType.isStructureContainingArrays,
          TAggregatePtr.containsArrays, TField.type, TType.getStruct, TType.struct_]
      | ptr s =>
        simp [TField.isArrayOrContainsArrays, TType.isStructureContainingArrays,
          TAggregatePtr.containsArrays, TField.type, TType.getStruct, TType.struct_]

theorem containsArrays_iff_field (s : TFieldListCollection) :
    TStructure.containsArrays s = true ↔
      ∃ f ∈ s.mFields.toList, f.type.isArray = true ∨
        ∃ s', f.type.getStruct = .ptr s' ∧ TStructure.containsArrays s' = true := by
  cases s with
  | mk p nm fs =>
    simp only [TStructure.containsArrays, TFieldListCollection.mFields,
      containsArraysLoop_iff, isArrayOrContainsArrays_iff]

/-- C13. `TStructure::containsArrays` is true iff some field is an array or the type of
some field refers to a struct that itself `containsArrays`. So it is true for a struct
with an array field and for a struct whose only field is of a struct that contains an
array, and false for a struct whose fields are neither arrays nor of struct type. -/
theorem containsArrays_iff (s : TFieldListCollection) :
    (TStructure.containsArrays s = true ↔
      ∃ f ∈ s.mFields.toList, f.type.isArray = true ∨
        ∃ s', f.type.getStruct = .ptr s' ∧ TStructure.containsArrays s' = true) ∧
    ((∃ f ∈ s.mFields.toList, f.type.isArray = true) →
      TStructure.containsArrays s = true) ∧
    (∀ (f : TField) (s' : TFieldListCollection), s.mFields.toList = [f] →
      f.type.getStruct = .ptr s' → TStructure.containsArrays s' = true →
      TStructure.containsArrays s = true) ∧
    ((∀ f ∈ s.mFields.toList, f.type.isArray = false ∧ f.type.getStruct = .null) →
      TStructure.containsArrays s = false) := by
  have key := containsArrays_iff_field s
  refine ⟨key, ?_, ?_, ?_⟩
  · rintro ⟨f, hf, ha⟩
    exact key.2 ⟨f, hf, Or.inl ha⟩
  · intro f s' hl hs hc
    exact key.2 ⟨f, by rw [hl]; exact List.mem_singleton.2 rfl, Or.inr ⟨s', hs, hc⟩⟩
  · intro hall
    cases hc : TStructure.containsArrays s with
    | false => rfl
    | true =>
      obtain ⟨f, hf, h⟩ := key.1 hc
      obtain ⟨h1, h2⟩ := hall f hf
      rcases h with h | ⟨s', hs, _⟩
      · rw [h1] at h; exact Bool.noConfusion h
      · rw [h2] at hs; exact TAggregatePtr.noConfusion hs

/-- C13, at `struct Inner { float x; float y[3]; sampler2D t; }`, which has an array
field, at `struct Outer { Inner i; }`, and at `struct Plain { float x; }`. -/
theorem containsArrays_iff_witness :
    (∃ f ∈ exInner.mFields.toList, f.type.isArray = true) ∧
    TStructure.containsArrays exInner = true ∧
    exOuter.mFields.toList = [TField.mk (TType.fromPublicType (exPublicStruct exInner)) "i"] ∧
    (TType.fromPublicType (exPublicStruct exInner)).getStruct = .ptr exInner ∧
    TStructure.containsArrays exOuter = true ∧
    (∀ f ∈ exPlain.mFields.toList, f.type.isArray = false ∧ f.type.getStruct = .null) ∧
    TStructure.containsArrays exPlain = false :=
  have hInner : TStructure.containsArrays exInner = true :=
    (containsArrays_iff exInner).2.1 (by decide)
  have hPlain : ∀ f ∈ exPlain.mFields.toList,
      f.type.isArray = false ∧ f.type.getStruct = .null := by
    intro f hf
    simp only [exPlain, TFieldListCollection.mFields, TFieldList.toList,
      List.mem_singleton] at hf
    subst hf
    exact ⟨rfl, rfl⟩
  ⟨by decide, hInner, rfl, rfl,
    (containsArrays_iff exOuter).2.2.1 _ exInner rfl rfl hInner,
    hPlain, (containsArrays_iff exPlain).2.2.2 hPlain⟩

mutual
theorem isStructureContainingType_eq_any (k : TBasicType) :
    ∀ t : TType, t.isStructureContainingType k =
      t.nestedFields.any (fun f => f.type.getBasicType == k)
  | .mk _ _ _ _ _ _ _ _ _ _ _ st _ => by
    simp only [TType.isStructureContainingType, TType.nestedFields]
    exact ptr_containsType_eq_any k st
theorem ptr_containsType_eq_any (k : TBasicType) :
    ∀ p : TAggregatePtr, p.containsType k =
      p.reachableFields.any (fun f => f.type.getBasicType == k)
  | .null => rfl
  | .ptr s => by
    simp only [TAggregatePtr.containsType, TAggregatePtr.reachableFields]
    exact structure_containsType_eq_any k s
theorem structure_containsType_eq_any (k : TBasicType) :
    ∀ s : TFieldListCollection, TStructure.containsType k s =
      s.reachableFields.any (fun f => f.type.getBasicType == k)
  | .mk _ _ fs => by
    simp only [TStructure.containsType, TFieldListCollection.reachableFields]
    exact fields_containsType_eq_any k fs
theorem fields_containsType_eq_any (k : TBasicType) :
    ∀ fs : TFieldList, fs.containsTypeLoop k =
      fs.reachableFields.any (fun f => f.type.getBasicType == k)
  | .nil => rfl
  | .cons f rest => by
    simp only [TFieldList.containsTypeLoop, TFieldList.reachableFields, List.any_cons,
      List.any_append]
    rw [field_hasOrContainsType_eq_any k f, fields_containsType_eq_any k rest]
    cases (f.type.getBasicType == k) <;>
      cases (f.nestedFields.any fun f => f.type.getBasicType == k) <;> simp
theorem field_hasOrContainsType_eq_any (k : TBasicType) :
    ∀ f : TField, f.hasOrContainsType k =
      ((f.type.getBasicType == k) ||
        f.nestedFields.any (fun f => f.type.getBasicType == k))
  | .mk t _ => by
    simp only [TField.hasOrContainsType, TField.nestedFields]
    rw [isStructureContainingType_eq_any k t]
    rfl
end

theorem containsTypeLoop_iff (k : TBasicType) :
    ∀ fs : TFieldList, fs.containsTypeLoop k = true ↔
      ∃ f ∈ fs.toList, f.hasOrContainsType k = true
  | .nil => by simp [TFieldList.containsTypeLoop, TFieldList.toList]
  | .cons f rest => by
    have ih := containsTypeLoop_iff k rest
    simp only [TFieldList.containsTypeLoop, TFieldList.toList, List.mem_cons,
      exists_eq_or_imp]
    cases hf : f.hasOrContainsType k <;> simp [ih]

theorem hasOrContainsType_iff (k : TBasicType) (f : TField) :
    f.hasOrContainsType k = true ↔
      (f.type.getBasicType = k ∨
        ∃ s', f.type.getStruct = .ptr s' ∧ TStructure.containsType k s' = true) := by
  cases f with
  | mk t nm =>
    cases t with
    | mk ty pr q inv lq ps ss arr n mx ib st dn =>
      cases st with
      | null =>
        simp [TField.hasOrContainsType, TType.isStructureContainingType,
          TAggregatePtr.containsType, TField.type, TType.getStruct, TType.struct_]
      | ptr s =>
        simp [TField.hasOrContainsType, TType.isStructureContainingType,
          TAggregatePtr.containsType, TField.type, TType.getStruct, TType.struct_]

/-- C14. `TStructure::containsType(k)` is true iff some field at any nesting depth
reachable through struct-typed fields has basic kind `k`; equivalently, iff some field
has basic kind `k` itself or is of a struct that `containsType(k)`. -/
theorem containsType_iff (s : TFieldListCollection) (k : TBasicType) :
    (TStructure.containsType k s = true ↔
      ∃ f ∈ s.reachableFields, f.type.getBasicType = k) ∧
    (TStructure.containsType k s = true ↔
      ∃ f ∈ s.mFields.toList, f.type.getBasicType = k ∨
        ∃ s', f.type.getStruct = .ptr s' ∧ TStructure.containsType k s' = true) := by
  constructor
  · rw [structure_containsType_eq_any k s, List.any_eq_true]
    simp only [beq_iff_eq]
  · cases s with
    | mk p nm fs =>
      simp only [TStructure.containsType, TFieldListCollection.mFields,
        containsTypeLoop_iff, hasOrContainsType_iff]

/-- The fields reachable in `struct Outer { Inner i; }` are `i` and the three fields of
`Inner`; `Outer` contains the kind `sampler2D` through `Inner` and does not contain the
kind `int`. -/
theorem containsType_example :
    exOuter.reachableFields.map TField.name = ["i", "x", "y", "t"] ∧
    TStructure.containsType EbtSampler2D exOuter = true ∧
    TStructure.containsType EbtStruct exOuter = true ∧
    TStructure.containsType EbtInt exOuter = false := by
  decide

mutual
theorem isStructureContainingSamplers_eq_any :
    ∀ t : TType, t.isStructureContainingSamplers =
      t.nestedFields.any (fun f => IsSampler f.type.getBasicType)
  | .mk _ _ _ _ _ _ _ _ _ _ _ st _ => by
    simp only [TType.isStructureContainingSamplers, TType.nestedFields]
    exact ptr_containsSamplers_eq_any st
theorem ptr_containsSamplers_eq_any :
    ∀ p : TAggregatePtr, p.containsSamplers =
      p.reachableFields.any (fun f => IsSampler f.type.getBasicType)
  | .null => rfl
  | .ptr s => by
    simp only [TAggregatePtr.containsSamplers, TAggregatePtr.reachableFields]
    exact structure_containsSamplers_eq_any s
theorem structure_containsSamplers_eq_any :
    ∀ s : TFieldListCollection, TStructure.containsSamplers s =
      s.reachableFields.any (fun f => IsSampler f.type.getBasicType)
  | .mk _ _ fs => by
    simp only [TStructure.containsSamplers, TFieldListCollection.reachableFields]
    exact fields_containsSamplers_eq_any fs
theorem fields_containsSamplers_eq_any :
    ∀ fs : TFieldList, fs.containsSamplersLoop =
      fs.reachableFields.any (fun f => IsSampler f.type.getBasicType)
  | .nil => rfl
  | .cons f rest => by
    simp only [TFieldList.containsSamplersLoop, TFieldList.reachableFields, List.any_cons,
      List.any_append]
    rw [field_isOrContainsSamplers_eq_any f, fields_containsSamplers_eq_any rest]
    cases (IsSampler f.type.getBasicType) <;>
      cases (f.nestedFields.any fun f => IsSampler f.type.getBasicType) <;> simp
theorem field_isOrContainsSamplers_eq_any :
    ∀ f : TField, f.isOrContainsSamplers =
      (IsSampler f.type.getBasicType ||
        f.nestedFields.any (fun f => IsSampler f.type.getBasicType))
  | .mk t _ => by
    simp only [TField.isOrContainsSamplers, TField.nestedFields]
    rw [isStructureContainingSamplers_eq_any t]
    rfl
end

theorem containsSamplersLoop_iff :
    ∀ fs : TFieldList, fs.containsSamplersLoop = true ↔
      ∃ f ∈ fs.toList, f.isOrContainsSamplers = true
  | .nil => by simp [TFieldList.containsSamplersLoop, TFieldList.toList]
  | .cons f rest => by
    have ih := containsSamplersLoop_iff rest
    simp only [TFieldList.containsSamplersLoop, TFieldList.toList, List.mem_cons,
      exists_eq_or_imp]
    cases hf : f.isOrContainsSamplers <;> simp [ih]

theorem isOrContainsSamplers_iff (f : TField) :
    f.isOrContainsSamplers = true ↔
      (IsSampler f.type.getBasicType = true ∨
        ∃ s', f.type.getStruct = .ptr s' ∧ TStructure.containsSamplers s' = true) := by
  cases f with
  | mk t nm =>
    cases t with
    | mk ty pr q inv lq ps ss arr n mx ib st dn =>
      cases st with
      | null =>
        simp [TField.isOrContainsSamplers, TType.isStructureContainingSamplers,
          TAggregatePtr.containsSamplers, TField.type, TType.getStruct, TType.struct_]
      | ptr s =>
        simp [TField.isOrContainsSamplers, TType.isStructureContainingSamplers,
          TAggregatePtr.containsSamplers, TField.type, TType.getStruct, TType.struct_]

/-- C15. `TStructure::containsSamplers` is true iff the basic kind of some field is a
sampler kind or some field is of a struct that itself `containsSamplers`; equivalently,
iff some field reachable at any depth has a sampler kind. It is false for a struct all of
whose transitively reachable fields have kinds that are not samplers. -/
theorem containsSamplers_iff (s : TFieldListCollection) :
    (TStructure.containsSamplers s = true ↔
      ∃ f ∈ s.mFields.toList, IsSampler f.type.getBasicType = true ∨
        ∃ s', f.type.getStruct = .ptr s' ∧ TStructure.containsSamplers s' = true) ∧
    (TStructure.containsSamplers s = true ↔
      ∃ f ∈ s.reachableFields, IsSampler f.type.getBasicType = true) ∧
    ((∀ f ∈ s.reachableFields, IsSampler f.type.getBasicType = false) →
      TStructure.containsSamplers s = false) := by
  have hreach : TStructure.containsSamplers s = true ↔
      ∃ f ∈ s.reachableFields, IsSampler f.type.getBasicType = true := by
    rw [structure_containsSamplers_eq_any s, List.any_eq_true]
  refine ⟨?_, hreach, ?_⟩
  · cases s with
    | mk p nm fs =>
      simp only [TStructure.containsSamplers, TFieldListCollection.mFields,
        containsSamplersLoop_iff, isOrContainsSamplers_iff]
  · intro hall
    cases hc : TStructure.containsSamplers s with
    | false => rfl
    | true =>
      obtain ⟨f, hf, h⟩ := hreach.1 hc
      rw [hall f hf] at h
      exact Bool.noConfusion h

/-- C15, at `struct Plain { float x; }`, none of whose reachable fields is a sampler;
`struct Outer { Inner i; }` contains the sampler field of `Inner`. -/
theorem containsSamplers_iff_witness :
    (∀ f ∈ exPlain.reachableFields, IsSampler f.type.getBasicType = false) ∧
    TStructure.containsSamplers exPlain = false ∧
    TStructure.containsSamplers exOuter = true :=
  ⟨by decide, (containsSamplers_iff exPlain).2.2 (by decide),
    (containsSamplers_iff exOuter).2.1.2 (by decide)⟩

/-- C14, at `struct Outer { Inner i; }` and the kind `sampler2D`, which the field `t` of
`Inner` has. -/
theorem containsType_iff_witness :
    (∃ f ∈ exOuter.reachableFields, f.type.getBasicType = EbtSampler2D) ∧
    TStructure.containsType EbtSampler2D exOuter = true :=
  ⟨by decide, (containsType_iff exOuter EbtSampler2D).1.2 (by decide)⟩

/-! ### Claims about the struct size and the constructed descriptor -/

/-- C16, as stated, fails. The descriptor `exBlockType` of an interface block satisfies
the invariant of the data model and is an aggregate: its kind is interface block and it
refers to the block `exBlock`, whose object size is 1. `getStructSize` still reaches its
assertion and yields 0, because it looks at the struct reference only. -/
theorem getStructSize_asserts_on_interface_block :
    exBlockType.wellFormed = true ∧
    exBlockType.type = EbtInterfaceBlock ∧
    exBlockType.interfaceBlock = .ptr exBlock ∧
    exBlockType.hasAggregateReference = true ∧
    exBlock.objectSize 64 = 1 ∧
    exBlockType.getStructSize 64 = { assertionFailed := true, value := 0 } :=
  ⟨by decide, rfl, rfl, by decide, by decide, by decide⟩

/-- C16, amended. `TType::getStructSize` reaches its assertion, and then yields 0, exactly
when the descriptor has no struct reference; otherwise it returns the object size of the
struct referred to. For a descriptor that satisfies the invariant of the data model the
assertion is reached exactly when the kind is not struct, an interface block included. -/
theorem getStructSize_asserts_iff_no_struct (w : Nat) (t : TType) :
    ((t.getStructSize w).assertionFailed = true ↔ t.getStruct = .null) ∧
    (t.getStruct = .null → t.getStructSize w = { assertionFailed := true, value := 0 }) ∧
    (∀ s, t.getStruct = .ptr s →
      t.getStructSize w = { assertionFailed := false, value := s.objectSize w }) ∧
    (t.wellFormed = true →
      ((t.getStructSize w).assertionFailed = true ↔ t.type ≠ EbtStruct)) := by
  have key : (t.getStructSize w).assertionFailed = true ↔ t.getStruct = .null := by
    simp only [TType.getStructSize]
    cases t.getStruct <;> simp
  refine ⟨key, ?_, ?_, ?_⟩
  · intro h
    simp only [TType.getStructSize, h]
  · intro s h
    simp only [TType.getStructSize, h]
  · intro hwf
    rw [key]
    cases t with
    | mk ty pr q inv lq ps ss arr n mx ib st dn =>
      simp only [TType.wellFormed, Bool.and_eq_true, beq_iff_eq] at hwf
      obtain ⟨⟨⟨⟨_, hst⟩, _⟩, _⟩, _⟩ := hwf
      simp only [TType.getStruct, TType.struct_, TType.type]
      cases st with
      | null =>
        simp only [TAggregatePtr.isNull] at hst
        constructor
        · intro _ hc
          subst hc
          simp at hst
        · intro _; rfl
      | ptr s =>
        simp only [TAggregatePtr.isNull] at hst
        constructor
        · intro hc; exact TAggregatePtr.noConfusion hc
        · intro hne
          have : (ty == EbtStruct) = false := by simpa using hne
          rw [this] at hst
          simp at hst

/-- C16 amended, at the descriptor of `struct S { float a; int b[4]; }`. -/
theorem getStructSize_asserts_iff_no_struct_witness :
    (exStructType exStructS 1).getStruct = .ptr exStructS ∧
    (exStructType exStructS 1).wellFormed = true ∧
    (exStructType exStructS 1).getStructSize 64 =
      { assertionFailed := false, value := exStructS.objectSize 64 } ∧
    (((exStructType exStructS 1).getStructSize 64).assertionFailed = true ↔
      (exStructType exStructS 1).type ≠ EbtStruct) :=
  ⟨rfl, by decide,
    (getStructSize_asserts_iff_no_struct 64 (exStructType exStructS 1)).2.2.1 exStructS rfl,
    (getStructSize_asserts_iff_no_struct 64 (exStructType exStructS 1)).2.2.2 (by decide)⟩

/-- C17, as stated, fails. A public type of struct kind with a null `userDef` gives a
descriptor of struct kind without any aggregate reference; a public type of kind `float`
whose `userDef` refers to a struct gives a descriptor of kind `float` with a struct
reference; a public type of interface-block kind gives a descriptor without an
interface-block reference. -/
theorem fromPublicType_breaks_reference_invariant :
    (TType.fromPublicType exPublicStructWithoutDef).type = EbtStruct ∧
    (TType.fromPublicType exPublicStructWithoutDef).hasAggregateReference = false ∧
    (TType.fromPublicType { exPublicStruct exPlain with type := EbtFloat }).type = EbtFloat ∧
    (TType.fromPublicType
      { exPublicStruct exPlain with type := EbtFloat }).hasAggregateReference = true ∧
    (TType.fromPublicType
      { exPublicFloat with type := EbtInterfaceBlock }).type = EbtInterfaceBlock ∧
    (TType.fromPublicType
      { exPublicFloat with type := EbtInterfaceBlock }).hasAggregateReference = false := by
  decide

theorem fromPublicType_fields (p : TPublicType) :
    (TType.fromPublicType p).type = p.type ∧
    (TType.fromPublicType p).interfaceBlock = .null ∧
    (TType.fromPublicType p).struct_ =
      match p.userDef with
      | none => .null
      | some u => u.getStruct := by
  cases hu : p.userDef with
  | none => simp only [TType.fromPublicType, hu]; exact ⟨rfl, rfl, rfl⟩
  | some u =>
    simp only [TType.fromPublicType, hu, TType.computeDeepestStructNesting]
    exact ⟨rfl, rfl, rfl⟩

/-- C17, amended. The descriptor constructed by `TType::TType(p)` has the kind of `p`, a
null interface-block reference, and as struct reference the struct of `p.userDef`, null
when `p.userDef` is null. So it has a non-null aggregate reference iff `p.userDef` is
non-null and refers to a struct; and "non-null aggregate reference iff the kind is struct
or interface block" holds for it exactly when that condition agrees with the kind of `p`
being struct or interface block. -/
theorem fromPublicType_aggregate_reference (p : TPublicType) :
    (TType.fromPublicType p).type = p.type ∧
    (TType.fromPublicType p).interfaceBlock = .null ∧
    (TType.fromPublicType p).struct_ =
      (match p.userDef with
       | none => .null
       | some u => u.getStruct) ∧
    ((TType.fromPublicType p).hasAggregateReference = true ↔
      ∃ u s, p.userDef = some u ∧ u.getStruct = .ptr s) ∧
    (((TType.fromPublicType p).hasAggregateReference = true ↔
        ((TType.fromPublicType p).type = EbtStruct ∨
          (TType.fromPublicType p).type = EbtInterfaceBlock)) ↔
      ((∃ u s, p.userDef = some u ∧ u.getStruct = .ptr s) ↔
        (p.type = EbtStruct ∨ p.type = EbtInterfaceBlock))) := by
  obtain ⟨h1, h2, h3⟩ := fromPublicType_fields p
  have h4 : (TType.fromPublicType p).hasAggregateReference = true ↔
      ∃ u s, p.userDef = some u ∧ u.getStruct = .ptr s := by
    simp only [TType.hasAggregateReference, h2, h3, TAggregatePtr.isNull]
    cases hu : p.userDef with
    | none => simp [TAggregatePtr.isNull]
    | some u =>
      cases hs : u.getStruct with
      | null => simp [hs]
      | ptr s => simp [hs]
  refine ⟨h1, h2, h3, h4, ?_⟩
  rw [h4, h1]

/-- C17 amended, at the public type of a variable of `struct Plain { float x; }`. -/
theorem fromPublicType_aggregate_reference_witness :
    (∃ u s, (exPublicStruct exPlain).userDef = some u ∧ u.getStruct = .ptr s) ∧
    (TType.fromPublicType (exPublicStruct exPlain)).type = EbtStruct ∧
    (TType.fromPublicType (exPublicStruct exPlain)).struct_ = .ptr exPlain ∧
    (TType.fromPublicType (exPublicStruct exPlain)).hasAggregateReference = true :=
  ⟨⟨_, _, rfl, rfl⟩,
    (fromPublicType_aggregate_reference (exPublicStruct exPlain)).1,
    (fromPublicType_aggregate_reference (exPublicStruct exPlain)).2.2.1,
    (fromPublicType_aggregate_reference (exPublicStruct exPlain)).2.2.2.1.2
      ⟨_, _, rfl, rfl⟩⟩

end SwiftShader
